import Mathlib

/-!
Verification of the snowtree worktree manager (`WorktreeManager`) and git file
watcher (`GitFileWatcher`) against their natural-language specification.

The TypeScript source is shallowly embedded: JavaScript string operations are
modelled over `List Char`, git subprocess outcomes are supplied by an explicit
environment record, and the event-driven watcher becomes a step function on an
explicit state type.
-/

/-! ## JavaScript string primitives -/

/-- Character class of the JavaScript regex `\s` (and of `String.prototype.trim`):
whitespace including NBSP, BOM and the Unicode space separators. -/
def isJsWs (c : Char) : Bool :=
  c = ' ' || c = '\t' || c = '\n' || c = '\r' || c = '\x0b' || c = '\x0c' ||
  c = '\u00A0' || c = '\u1680' ||
  (0x2000 ≤ c.toNat && c.toNat ≤ 0x200A) ||
  c = '\u2028' || c = '\u2029' || c = '\u202F' || c = '\u205F' || c = '\u3000' ||
  c = '\uFEFF'

/-- JavaScript line terminators: the characters NOT matched by `.` in a regex. -/
def isLineTermChar (c : Char) : Bool :=
  c = '\n' || c = '\r' || c = '\u2028' || c = '\u2029'

/-- `String.prototype.trim` on a character list. -/
def jsTrimL (l : List Char) : List Char :=
  ((l.dropWhile isJsWs).reverse.dropWhile isJsWs).reverse

/-- `String.prototype.trim`. -/
def jsTrim (s : String) : String :=
  (jsTrimL s.toList).asString

/-- `a.startsWith(p)` on character lists. -/
def strStarts : List Char → List Char → Bool
  | _, [] => true
  | [], _ :: _ => false
  | a :: as, b :: bs => a == b && strStarts as bs

/-- `a.endsWith(p)` on character lists. -/
def strEnds (l p : List Char) : Bool :=
  strStarts l.reverse p.reverse

/-- `a.includes(p)` on character lists. -/
def strHas : List Char → List Char → Bool
  | [], sub => sub.isEmpty
  | c :: t, sub => strStarts (c :: t) sub || strHas t sub

/-- `String.prototype.replace` with a plain-string pattern and empty replacement:
removes the first occurrence of `pat`. -/
def replaceFirstL : List Char → List Char → List Char
  | [], _ => []
  | c :: t, pat =>
    if strStarts (c :: t) pat then (c :: t).drop pat.length
    else c :: replaceFirstL t pat

/-- `s.split('/')`, as (first component, remaining components). -/
def splitSlashNE : List Char → List Char × List (List Char)
  | [] => ([], [])
  | c :: t =>
    let r := splitSlashNE t
    if c = '/' then ([], r.1 :: r.2) else (c :: r.1, r.2)

/-- `s.split('/').pop() || ''`: the basename of a slash-separated path. -/
def basenameOfL (l : List Char) : List Char :=
  let r := splitSlashNE l
  match r.2.getLast? with
  | some x => x
  | none => r.1

/-! ### Lemmas about the string primitives -/

theorem strStarts_iff (l p : List Char) : strStarts l p = true ↔ ∃ t, l = p ++ t := by
  induction p generalizing l with
  | nil => simp [strStarts]
  | cons b bs ih =>
    cases l with
    | nil => simp [strStarts]
    | cons a as =>
      simp only [strStarts, Bool.and_eq_true, beq_iff_eq, ih, List.cons_append,
        List.cons.injEq]
      constructor
      · rintro ⟨rfl, t, rfl⟩; exact ⟨t, rfl, rfl⟩
      · rintro ⟨t, rfl, rfl⟩; exact ⟨rfl, t, rfl⟩

theorem strEnds_iff (l p : List Char) : strEnds l p = true ↔ ∃ t, l = t ++ p := by
  unfold strEnds
  rw [strStarts_iff]
  constructor
  · rintro ⟨t, h⟩
    refine ⟨t.reverse, ?_⟩
    have := congrArg List.reverse h
    simpa using this
  · rintro ⟨t, rfl⟩
    exact ⟨t.reverse, by simp⟩

theorem strStarts_append (p t : List Char) : strStarts (p ++ t) p = true := by
  rw [strStarts_iff]; exact ⟨t, rfl⟩

theorem splitSlashNE_no_slash (t : List Char) (h : '/' ∉ t) : splitSlashNE t = (t, []) := by
  induction t with
  | nil => rfl
  | cons c r ih =>
    simp only [List.mem_cons, not_or] at h
    have hc : ¬c = '/' := fun hh => h.1 hh.symm
    simp [splitSlashNE, ih h.2, hc]

theorem splitSlashNE_rest_ne_nil (t : List Char) (h : '/' ∈ t) :
    (splitSlashNE t).2 ≠ [] := by
  induction t with
  | nil => simp at h
  | cons c r ih =>
    simp only [List.mem_cons] at h
    by_cases hc : c = '/'
    · simp [splitSlashNE, hc]
    · have hr : '/' ∈ r := by
        rcases h with h | h
        · exact absurd h.symm hc
        · exact h
      simp only [splitSlashNE, if_neg hc]
      exact ih hr

theorem getLast?_cons_exists {α : Type} (a : α) (b : List α) :
    ∃ x, (a :: b).getLast? = some x := by
  induction b generalizing a with
  | nil => exact ⟨a, rfl⟩
  | cons c d ih =>
    rcases ih c with ⟨x, hx⟩
    exact ⟨x, by rw [List.getLast?_cons_cons]; exact hx⟩

/-- The key `basename` characterization: for a nonempty slash-free `p`,
the basename of `l` equals `p` iff `l` is exactly `p` or ends in `"/" ++ p`. -/
theorem basenameOfL_eq_iff (l p : List Char) (hp : p ≠ []) (hps : '/' ∉ p) :
    basenameOfL l = p ↔ (l = p ∨ ∃ t, l = t ++ '/' :: p) := by
  induction l with
  | nil =>
    simp only [basenameOfL, splitSlashNE]
    constructor
    · intro h; exact absurd h.symm hp
    · rintro (h | ⟨t, h⟩)
      · exact absurd h.symm hp
      · exact absurd h (by simp)
  | cons c t ih =>
    by_cases hc : c = '/'
    · subst hc
      have hsplit : splitSlashNE ('/' :: t) = ([], (splitSlashNE t).1 :: (splitSlashNE t).2) := by
        simp [splitSlashNE]
      have hbase : basenameOfL ('/' :: t) = basenameOfL t := by
        cases h2 : (splitSlashNE t).2 with
        | nil => simp [basenameOfL, hsplit, h2, List.getLast?]
        | cons a b =>
          obtain ⟨x, hx⟩ := getLast?_cons_exists a b
          simp [basenameOfL, hsplit, h2, List.getLast?_cons_cons, hx]
      rw [hbase, ih]
      constructor
      · rintro (rfl | ⟨t', rfl⟩)
        · exact Or.inr ⟨[], rfl⟩
        · exact Or.inr ⟨'/' :: t', rfl⟩
      · rintro (h | ⟨t', h⟩)
        · exact absurd (h ▸ List.mem_cons_self '/' t) hps
        · cases t' with
          | nil =>
            simp only [List.nil_append, List.cons.injEq] at h
            exact Or.inl h.2
          | cons d t'' =>
            simp only [List.cons_append, List.cons.injEq] at h
            exact Or.inr ⟨t'', h.2⟩
    · by_cases hslash : '/' ∈ t
      · have h2 : (splitSlashNE t).2 ≠ [] := splitSlashNE_rest_ne_nil t hslash
        have hbase : basenameOfL (c :: t) = basenameOfL t := by
          cases h2' : (splitSlashNE t).2 with
          | nil => exact absurd h2' h2
          | cons a b =>
            obtain ⟨x, hx⟩ := getLast?_cons_exists a b
            simp [basenameOfL, splitSlashNE, hc, h2', hx]
        rw [hbase, ih]
        constructor
        · rintro (rfl | ⟨t', rfl⟩)
          · exact absurd hslash hps
          · exact Or.inr ⟨c :: t', rfl⟩
        · rintro (h | ⟨t', h⟩)
          · have : '/' ∈ p := by
              rw [← h]; exact List.mem_cons_of_mem c hslash
            exact absurd this hps
          · cases t' with
            | nil =>
              simp only [List.nil_append, List.cons.injEq] at h
              exact absurd h.1 hc
            | cons d t'' =>
              simp only [List.cons_append, List.cons.injEq] at h
              exact Or.inr ⟨t'', h.2⟩
      · have hbase : basenameOfL (c :: t) = c :: t := by
          simp [basenameOfL, splitSlashNE, hc, splitSlashNE_no_slash t hslash, List.getLast?]
        rw [hbase]
        constructor
        · intro h; exact Or.inl h
        · rintro (h | ⟨t', h⟩)
          · exact h
          · cases t' with
            | nil =>
              simp only [List.nil_append, List.cons.injEq] at h
              exact absurd h.1 hc
            | cons d t'' =>
              simp only [List.cons_append, List.cons.injEq] at h
              exact absurd (h.2 ▸ List.mem_append_right t'' (List.mem_cons_self '/' p)) hslash

/-! ## `parseGitHubOwnerRepo` and `isForkOfUpstream` (worktree-manager.ts) -/

structure RemoteOwnerRepo where
  owner : String
  repo : String
  deriving DecidableEq, Repr

/-- Semantics of `([^/]+)\/` at the start of `l`: the owner is the maximal
slash-free run, which must be nonempty and followed by a `/`. -/
def splitFirstSlash (l : List Char) : Option (List Char × List Char) :=
  let o := l.takeWhile (fun c => !(c = '/'))
  match l.dropWhile (fun c => !(c = '/')) with
  | '/' :: r => if o.isEmpty then none else some (o, r)
  | _ => none

/-- Semantics of `(.+?)(?:\.git)?$` applied to `rest` (lazy capture, optional
`.git` suffix, `.` excluding line terminators): strips one final `.git` when the
remainder is still nonempty, and requires the capture to be free of line
terminators. -/
def lazyRepoCapture (rest : List Char) : Option (List Char) :=
  if strEnds rest (".git".toList) && decide (5 ≤ rest.length) then
    let r := rest.take (rest.length - 4)
    if r.all (fun c => !isLineTermChar c) then some r else none
  else
    if !rest.isEmpty && rest.all (fun c => !isLineTermChar c) then some rest else none

/-- The regex `^git@github\.com:([^/]+)\/(.+?)(?:\.git)?$` applied to the
trimmed URL. -/
def sshParse (t : List Char) : Option RemoteOwnerRepo :=
  if strStarts t ("git@github.com:".toList) then
    match splitFirstSlash (t.drop 15) with
    | some (o, rest) => (lazyRepoCapture rest).map (fun r => ⟨o.asString, r.asString⟩)
    | none => none
  else none

/-- The regex `^https?:\/\/github\.com\/([^/]+)\/(.+?)(?:\.git)?$` applied to
the trimmed URL. -/
def httpsParse (t : List Char) : Option RemoteOwnerRepo :=
  if strStarts t ("https://github.com/".toList) then
    match splitFirstSlash (t.drop 19) with
    | some (o, rest) => (lazyRepoCapture rest).map (fun r => ⟨o.asString, r.asString⟩)
    | none => none
  else if strStarts t ("http://github.com/".toList) then
    match splitFirstSlash (t.drop 18) with
    | some (o, rest) => (lazyRepoCapture rest).map (fun r => ⟨o.asString, r.asString⟩)
    | none => none
  else none

/-- `parseGitHubOwnerRepo(remoteUrl)`: trims, tries the SSH pattern, then the
HTTPS pattern, and returns null if neither matches. -/
def parseGitHubOwnerRepo (remoteUrl : String) : Option RemoteOwnerRepo :=
  let t := jsTrimL remoteUrl.toList
  match sshParse t with
  | some r => some r
  | none => httpsParse t

/-- `isForkOfUpstream(originUrl, upstreamUrl)`: both URLs parse, same repo,
different owner. -/
def isForkOfUpstream (originUrl upstreamUrl : String) : Bool :=
  match parseGitHubOwnerRepo originUrl, parseGitHubOwnerRepo upstreamUrl with
  | some origin, some upstream => origin.repo == upstream.repo && origin.owner != upstream.owner
  | _, _ => false

/-! ## `WorktreeManager` (worktree-manager.ts) -/

/-- One git subprocess invocation as passed to the executor. -/
structure GitInvocation where
  cwd : String
  argv : List String
  treatAsSuccessIfOutputIncludes : List String
  sessionId : Option String
  deriving DecidableEq, Repr

namespace WorktreeManager

/-- `path.join(a, b)` (no normalization needed for the claims). -/
def pathJoin (a b : String) : String := a ++ "/" ++ b

/-- `getProjectPaths`: the worktree base directory for a project. -/
def getProjectPathsBaseDir (projectPath : String) (worktreeFolder : Option String) : String :=
  let folderName := match worktreeFolder with
    | some f => if f = "" then "worktrees" else f
    | none => "worktrees"
  let isAbs := match worktreeFolder with
    | some f => f ≠ "" && (strStarts f.toList ['/'] || strHas f.toList [':'])
    | none => false
  if isAbs then folderName else pathJoin projectPath folderName

/-- `removeWorktreePath(projectPath, worktreePath, sessionId?)`: the single git
invocation performed under the `worktree-remove-` lock. -/
def removeWorktreePath (projectPath worktreePath : String) (sessionId : Option String) :
    GitInvocation :=
  { cwd := projectPath
    argv := ["git", "worktree", "remove", worktreePath, "--force"]
    treatAsSuccessIfOutputIncludes := ["is not a working tree"]
    sessionId := sessionId }

/-- Outcomes of the git commands `createWorktree` may run, supplied as an
explicit environment. `none`/`false` means the command fails (nonzero exit /
thrown error); `some s` is the command's stdout. -/
structure GitEnv where
  insideWorkTree : Bool
  initOk : Bool
  hasCommits : Bool
  commitOk : Bool
  remoteUrlRaw : String → Option String
  fetchOk : String → Bool
  symbolicRefRaw : String → Option String
  remoteRefExists : String → String → Bool
  abbrevRefHeadRaw : Option String
  verifyCommitOk : String → Bool
  localRefExists : String → Bool
  revParseRaw : String → Option String
  worktreeAddOk : Bool

/-- `branch || name`. -/
def branchNameOf (branch : Option String) (name : String) : String :=
  match branch with
  | some b => if b = "" then name else b
  | none => name

/-- `getRemoteUrl`: stdout trimmed, empty or failing treated as null. -/
def getRemoteUrlM (env : GitEnv) (remoteName : String) : Option String :=
  match env.remoteUrlRaw remoteName with
  | none => none
  | some s => if jsTrim s = "" then none else some (jsTrim s)

/-- Candidate base remote selection (lines 186-193): prefer `upstream` when
origin is a fork of it, else `origin`, else `upstream`, else none. -/
def chooseBaseRemote (originUrl upstreamUrl : Option String) : Option String :=
  match originUrl, upstreamUrl with
  | some ov, some uv => if isForkOfUpstream ov uv then some "upstream" else some "origin"
  | some _, none => some "origin"
  | none, some _ => some "upstream"
  | none, none => none

/-- The name read from `git symbolic-ref refs/remotes/<r>/HEAD`: trimmed stdout
with the `refs/remotes/<r>/` prefix removed and trimmed again; a failing
command or an empty result is unusable (falsy). -/
def remoteHeadName (env : GitEnv) (r : String) : Option String :=
  match env.symbolicRefRaw r with
  | none => none
  | some s =>
    let nm := jsTrim (replaceFirstL (jsTrimL s.toList) ("refs/remotes/" ++ r ++ "/").toList).asString
    if nm = "" then none else some nm

/-- Base branch resolution (lines 205-246) together with the git commands it
runs, in order. -/
def resolveMainBranchTraced (env : GitEnv) (baseBranch : Option String)
    (baseRemote : Option String) : List (List String) × String :=
  let truthy : Bool := match baseBranch with
    | some b => !(b = "")
    | none => false
  if truthy then ([], baseBranch.getD "") else
  let step1 : List (List String) × Option String :=
    match baseRemote with
    | some r =>
      let t0 := [["git", "symbolic-ref", "refs/remotes/" ++ r ++ "/HEAD"]]
      match remoteHeadName env r with
      | some nm => (t0, some nm)
      | none =>
        if env.remoteRefExists r "main" then
          (t0 ++ [["git", "show-ref", "--verify", "--quiet", "refs/remotes/" ++ r ++ "/main"]],
           some "main")
        else if env.remoteRefExists r "master" then
          (t0 ++ [["git", "show-ref", "--verify", "--quiet", "refs/remotes/" ++ r ++ "/main"],
                  ["git", "show-ref", "--verify", "--quiet", "refs/remotes/" ++ r ++ "/master"]],
           some "master")
        else
          (t0 ++ [["git", "show-ref", "--verify", "--quiet", "refs/remotes/" ++ r ++ "/main"],
                  ["git", "show-ref", "--verify", "--quiet", "refs/remotes/" ++ r ++ "/master"]],
           none)
    | none => ([], none)
  match step1.2 with
  | some nm => (step1.1, nm)
  | none =>
    let t2 := step1.1 ++ [["git", "rev-parse", "--abbrev-ref", "HEAD"]]
    match env.abbrevRefHeadRaw with
    | some s => (t2, jsTrim s)
    | none => (t2, "main")

/-- Base branch resolution result only. -/
def resolveMainBranch (env : GitEnv) (baseBranch : Option String)
    (baseRemote : Option String) : String :=
  (resolveMainBranchTraced env baseBranch baseRemote).2

/-- Errors `createWorktree` can reject with. -/
inductive CreateError where
  | gitFailure (argv : List String)
  | branchExists (branchName : String)
  deriving DecidableEq, Repr

/-- The record `createWorktree` resolves with. -/
structure CreateResult where
  worktreePath : String
  baseCommit : String
  baseBranch : String
  branchName : String
  deriving DecidableEq, Repr

/-- The tail of `createWorktree` from base-branch resolution (line 205) to the
final `git worktree add`: takes the trace accumulated so far and returns the
full trace plus the outcome. -/
def createWorktreeFinish (env : GitEnv) (worktreePath branchName : String)
    (baseBranch baseRemote : Option String) (tr6 : List (List String)) :
    List (List String) × Except CreateError CreateResult :=
  let res7 := resolveMainBranchTraced env baseBranch baseRemote
  let tr7 := tr6 ++ res7.1
  let mainBranchName := res7.2
  let actualBaseBranch := mainBranchName
  let baseRef0 := match baseRemote with
    | some r => r ++ "/" ++ mainBranchName
    | none => mainBranchName
  let tr8 := match baseRemote with
    | some _ => tr7 ++ [["git", "rev-parse", "--verify", baseRef0 ++ "^{commit}"]]
    | none => tr7 ++ [["git", "show-ref", "--verify", "--quiet", "refs/heads/" ++ mainBranchName]]
  if (match baseRemote with | some _ => !env.verifyCommitOk baseRef0 | none => false) then
    (tr8, .error (.gitFailure ["git", "rev-parse", "--verify"])) else
  let baseRef := match baseRemote with
    | some _ => baseRef0
    | none => if env.localRefExists mainBranchName then baseRef0 else "HEAD"
  let tr9 := tr8 ++ [["git", "show-ref", "--verify", "--quiet", "refs/heads/" ++ branchName]]
  if env.localRefExists branchName then (tr9, .error (.branchExists branchName)) else
  let tr10 := tr9 ++ [["git", "rev-parse", baseRef]]
  match env.revParseRaw baseRef with
  | none => (tr10, .error (.gitFailure ["git", "rev-parse"]))
  | some out =>
    let baseCommit := jsTrim out
    let tr11 := tr10 ++ [["git", "worktree", "add", "-b", branchName, worktreePath, baseRef]]
    if !env.worktreeAddOk then (tr11, .error (.gitFailure ["git", "worktree", "add"])) else
    (tr11, .ok ⟨worktreePath, baseCommit, actualBaseBranch, branchName⟩)

/-- `createWorktree(projectPath, name, branch?, baseBranch?, worktreeFolder?)`:
the ordered list of git invocations (argv only) and the outcome, for a given
environment of git command results. -/
def createWorktree (env : GitEnv) (projectPath name : String)
    (branch baseBranch worktreeFolder : Option String) :
    List (List String) × Except CreateError CreateResult :=
  let baseDir := getProjectPathsBaseDir projectPath worktreeFolder
  let worktreePath := pathJoin baseDir name
  let branchName := branchNameOf branch name
  let tr1 : List (List String) :=
    if env.insideWorkTree then [["git", "rev-parse", "--is-inside-work-tree"]]
    else [["git", "rev-parse", "--is-inside-work-tree"], ["git", "init"]]
  if !env.insideWorkTree && !env.initOk then (tr1, .error (.gitFailure ["git", "init"])) else
  let tr2 := tr1 ++ [["git", "worktree", "remove", worktreePath, "--force"]]
  let tr3 := tr2 ++ [["git", "rev-parse", "HEAD"]]
  let tr4 :=
    if env.hasCommits then tr3
    else tr3 ++ [["git", "add", "-A"], ["git", "commit", "-m", "Initial commit", "--allow-empty"]]
  if !env.hasCommits && !env.commitOk then
    (tr4, .error (.gitFailure ["git", "commit", "-m", "Initial commit", "--allow-empty"])) else
  let tr5 := tr4 ++ [["git", "remote", "get-url", "origin"], ["git", "remote", "get-url", "upstream"]]
  let originUrl := getRemoteUrlM env "origin"
  let upstreamUrl := getRemoteUrlM env "upstream"
  let baseRemote := chooseBaseRemote originUrl upstreamUrl
  let tr6 := match baseRemote with
    | some r => tr5 ++ [["git", "fetch", r]]
    | none => tr5
  if (match baseRemote with | some r => !env.fetchOk r | none => false) then
    (tr6, .error (.gitFailure ["git", "fetch"])) else
  createWorktreeFinish env worktreePath branchName baseBranch baseRemote tr6

end WorktreeManager

/-! ## `resolveGitDir` (git-file-watcher.ts) -/

/-- `path.dirname` (sufficient for the paths built here). -/
def jsDirname (s : String) : String :=
  let l := s.toList
  if l.contains '/' then ((l.reverse.dropWhile (fun c => !(c = '/'))).drop 1).reverse.asString
  else "."

/-- posix `path.isAbsolute`. -/
def jsIsAbsolute (s : String) : Bool :=
  strStarts s.toList ['/']

/-- `path.resolve(base, p)` for a relative `p` (no normalization needed for the
claims). -/
def pathResolve (base p : String) : String := base ++ "/" ++ p

/-- Backtracking step for `(.+)\s*$` at a fixed start position: `.`+ greedily
takes the longest line-terminator-free prefix, which must be nonempty and leave
an all-whitespace remainder. -/
def tryCapture (v : List Char) : Option (List Char) :=
  let m := (v.takeWhile (fun c => !isLineTermChar c)).length
  if m = 0 then none
  else if (v.drop m).all isJsWs then some (v.take m) else none

/-- Backtracking of the greedy `\s*` before the capture group: try the longest
whitespace prefix first, then shorter ones. -/
def sCapAux : Nat → List Char → Option (List Char)
  | 0, u => tryCapture u
  | a + 1, u =>
    match tryCapture (u.drop (a + 1)) with
    | some r => some r
    | none => sCapAux a u

/-- JavaScript semantics of `^gitdir:\s*(.+)\s*$` with the `i` flag on the
string `c`: case-insensitive literal prefix, then backtracking
`\s*(.+)\s*$`. -/
def regexGitdirCapture (c : List Char) : Option (List Char) :=
  if (c.take 7).map Char.toLower = "gitdir:".toList then
    let u := c.drop 7
    sCapAux (u.takeWhile isJsWs).length u
  else none

/-- What the filesystem holds at `<worktreePath>/.git`. A `fileEntry none` is a
file whose read throws. -/
inductive DotGitStat where
  | absent
  | directory
  | fileEntry (content : Option String)
  deriving DecidableEq, Repr

/-- `resolveGitDir(worktreePath)` for a given state of `<worktreePath>/.git`:
a directory is returned as-is; a file is read, trimmed, matched against
`^gitdir:\s*(.+)\s*$` (case-insensitive), and the trimmed captured path is
returned (absolute as-is, otherwise resolved against the `.git` file's
directory); anything else gives null. -/
def resolveGitDir (worktreePath : String) (entry : DotGitStat) : Option String :=
  match entry with
  | .absent => none
  | .directory => some (WorktreeManager.pathJoin worktreePath ".git")
  | .fileEntry none => none
  | .fileEntry (some content) =>
    let c := jsTrimL content.toList
    match regexGitdirCapture c with
    | none => none
    | some rawL =>
      let raw := jsTrim rawL.asString
      if raw = "" then none
      else if jsIsAbsolute raw then some raw
      else some (pathResolve (jsDirname (WorktreeManager.pathJoin worktreePath ".git")) raw)

/-- Collapsed form of the `gitdir` regex on an already-trimmed string: drop the
case-insensitive `gitdir:` prefix and the following whitespace; the remainder
is the capture when nonempty and free of line terminators. -/
def gitdirCaptureSpec (c : List Char) : Option (List Char) :=
  if (c.take 7).map Char.toLower = "gitdir:".toList then
    let r := (c.drop 7).dropWhile isJsWs
    if r.isEmpty then none
    else if r.all (fun c => !isLineTermChar c) then some r else none
  else none

/-- The amended claim's reading of `resolveGitDir`: the pattern applied to the
trimmed file text, the capture trimmed. -/
def resolveGitDirSpec (worktreePath : String) (entry : DotGitStat) : Option String :=
  match entry with
  | .absent => none
  | .directory => some (WorktreeManager.pathJoin worktreePath ".git")
  | .fileEntry none => none
  | .fileEntry (some content) =>
    match gitdirCaptureSpec (jsTrimL content.toList) with
    | none => none
    | some rawL =>
      let raw := jsTrim rawL.asString
      if raw = "" then none
      else if jsIsAbsolute raw then some raw
      else some (pathResolve (jsDirname (WorktreeManager.pathJoin worktreePath ".git")) raw)

/-! ## `GitFileWatcher` (git-file-watcher.ts) -/

namespace GitFileWatcher

def WORKTREE_DEBOUNCE_MS : Nat := 200

def GIT_DEBOUNCE_MS : Nat := 50

def IGNORE_PATTERNS : List String :=
  [".git/", "node_modules/", ".DS_Store", "thumbs.db", "*.swp", "*.swo", "*~", ".#*", "#*#"]

/-- One iteration of the `shouldIgnoreFile` loop: how `filename` is tested
against a single pattern, dispatching on the pattern's shape. -/
def matchesIgnorePattern (filename pat : String) : Bool :=
  if strEnds pat.toList ['/'] then
    strStarts filename.toList pat.toList || strHas filename.toList ('/' :: pat.toList)
  else if strStarts pat.toList "*.".toList then
    strEnds filename.toList (pat.toList.drop 1)
  else if strStarts pat.toList ".#".toList || strStarts pat.toList ['#'] then
    let basename := basenameOfL filename.toList
    strStarts basename ".#".toList || (strStarts basename ['#'] && strEnds basename ['#'])
  else if strEnds pat.toList ['~'] then
    strEnds filename.toList ['~']
  else
    filename == pat || strEnds filename.toList ('/' :: pat.toList)

/-- `shouldIgnoreFile(filename)`. -/
def shouldIgnoreFile (filename : String) : Bool :=
  IGNORE_PATTERNS.any (fun pat => matchesIgnorePattern filename pat)

/-- The ignore filter as the specification words it: path segments `.git/` and
`node_modules/`, exact basenames `.DS_Store` and `thumbs.db`, extensions
`.swp`/`.swo`, backup suffix `~`, and the editor lock-file conventions. -/
def ignoredBySpec (filename : String) : Bool :=
  let l := filename.toList
  let basename := basenameOfL l
  strStarts l ".git/".toList || strHas l "/.git/".toList ||
  strStarts l "node_modules/".toList || strHas l "/node_modules/".toList ||
  basename == ".DS_Store".toList || basename == "thumbs.db".toList ||
  strEnds l ".swp".toList || strEnds l ".swo".toList ||
  strEnds l ['~'] ||
  strStarts basename ".#".toList || (strStarts basename ['#'] && strEnds basename ['#'])

/-- A watched session's mutable fields. -/
structure WatchedSession where
  worktreePath : String
  lastModified : Nat
  pendingRefresh : Bool
  deriving DecidableEq, Repr

/-- Association-list lookup (JS `Map.get`). -/
def alookup {α : Type} (k : String) : List (String × α) → Option α
  | [] => none
  | (k', v) :: t => if k' = k then some v else alookup k t

/-- Association-list insert/replace (JS `Map.set`). -/
def ainsert {α : Type} (k : String) (v : α) : List (String × α) → List (String × α)
  | [] => [(k, v)]
  | (k', v') :: t => if k' = k then (k, v) :: t else (k', v') :: ainsert k v t

/-- Association-list delete (JS `Map.delete`). -/
def aerase {α : Type} (k : String) (l : List (String × α)) : List (String × α) :=
  l.filter (fun p => !(p.1 = k))

/-- The watcher's state: the two maps, the virtual clock, and the ordered log
of `needs-refresh` emissions. A timer is its deadline on the virtual clock. -/
structure WatcherState where
  watchedSessions : List (String × WatchedSession)
  refreshDebounceTimers : List (String × Nat)
  now : Nat
  emitted : List String
  deriving DecidableEq, Repr

def initState : WatcherState := ⟨[], [], 0, []⟩

/-- `scheduleRefreshCheck(sessionId, debounceMs)`: clear any existing timer for
the session and set a new one. -/
def scheduleRefreshCheck (sessionId : String) (debounceMs : Nat) (s : WatcherState) :
    WatcherState :=
  { s with refreshDebounceTimers := ainsert sessionId (s.now + debounceMs) s.refreshDebounceTimers }

/-- `performRefreshCheck(sessionId)`: emit `needs-refresh` iff the session is
still watched and `pendingRefresh` is set, clearing the flag. -/
def performRefreshCheck (sessionId : String) (s : WatcherState) : WatcherState :=
  match alookup sessionId s.watchedSessions with
  | none => s
  | some sess =>
    if sess.pendingRefresh then
      { s with
        watchedSessions :=
          ainsert sessionId { sess with pendingRefresh := false } s.watchedSessions
        emitted := s.emitted ++ [sessionId] }
    else s

/-- `stopWatching(sessionId)`. -/
def stopWatching (sessionId : String) (s : WatcherState) : WatcherState :=
  { s with
    watchedSessions := aerase sessionId s.watchedSessions
    refreshDebounceTimers := aerase sessionId s.refreshDebounceTimers }

/-- `startWatching(sessionId, worktreePath)`; `ok` is whether `fs.watch`
succeeded (on failure the error is caught and no session is registered). -/
def startWatching (sessionId worktreePath : String) (ok : Bool) (s : WatcherState) :
    WatcherState :=
  let s1 := stopWatching sessionId s
  if ok then
    { s1 with
      watchedSessions :=
        ainsert sessionId ⟨worktreePath, s1.now, false⟩ s1.watchedSessions }
  else s1

/-- `handleFileChange(sessionId, filename)`: worktree-content event with a
filename. -/
def handleFileChange (sessionId filename : String) (s : WatcherState) : WatcherState :=
  if shouldIgnoreFile filename then s
  else
    match alookup sessionId s.watchedSessions with
    | none => s
    | some sess =>
      scheduleRefreshCheck sessionId WORKTREE_DEBOUNCE_MS
        { s with
          watchedSessions :=
            ainsert sessionId { sess with lastModified := s.now, pendingRefresh := true }
              s.watchedSessions }

/-- `handleWorktreeUnknownChange(sessionId)`: worktree event without a
filename. -/
def handleWorktreeUnknownChange (sessionId : String) (s : WatcherState) : WatcherState :=
  match alookup sessionId s.watchedSessions with
  | none => s
  | some sess =>
    scheduleRefreshCheck sessionId WORKTREE_DEBOUNCE_MS
      { s with
        watchedSessions :=
          ainsert sessionId { sess with lastModified := s.now, pendingRefresh := true }
            s.watchedSessions }

/-- `handleGitMetadataChange(sessionId, path)`: git-metadata event; note there
is no ignore filter here. -/
def handleGitMetadataChange (sessionId : String) (s : WatcherState) : WatcherState :=
  match alookup sessionId s.watchedSessions with
  | none => s
  | some sess =>
    scheduleRefreshCheck sessionId GIT_DEBOUNCE_MS
      { s with
        watchedSessions :=
          ainsert sessionId { sess with lastModified := s.now, pendingRefresh := true }
            s.watchedSessions }

/-- A timer whose deadline has been reached fires: it is removed from the map
and `performRefreshCheck` runs. A timer that does not exist, or whose deadline
lies in the future, does nothing. -/
def timerElapse (sessionId : String) (s : WatcherState) : WatcherState :=
  match alookup sessionId s.refreshDebounceTimers with
  | none => s
  | some d =>
    if d ≤ s.now then
      performRefreshCheck sessionId
        { s with refreshDebounceTimers := aerase sessionId s.refreshDebounceTimers }
    else s

/-- Events the watcher reacts to, plus the passage of time. -/
inductive WEvent where
  | start (sessionId worktreePath : String) (ok : Bool)
  | stop (sessionId : String)
  | fileChange (sessionId filename : String)
  | unknownChange (sessionId : String)
  | gitMeta (sessionId : String)
  | elapse (sessionId : String)
  | advance (d : Nat)
  deriving DecidableEq, Repr

def step (e : WEvent) (s : WatcherState) : WatcherState :=
  match e with
  | .start sid wt ok => startWatching sid wt ok s
  | .stop sid => stopWatching sid s
  | .fileChange sid fn => handleFileChange sid fn s
  | .unknownChange sid => handleWorktreeUnknownChange sid s
  | .gitMeta sid => handleGitMetadataChange sid s
  | .elapse sid => timerElapse sid s
  | .advance d => { s with now := s.now + d }

def run (evs : List WEvent) (s : WatcherState) : WatcherState :=
  evs.foldl (fun st e => step e st) s

end GitFileWatcher

/-! ## Claim C1 -/

/-- C1 counterexample: `removeWorktreePath` has no `force` parameter, and a
call without any force indication still passes `--force`, so the flag is not
"omitted when force is not set". -/
theorem c1_force_not_omitted :
    (WorktreeManager.removeWorktreePath "/p" "/p/worktrees/wt" none).argv ≠
      ["git", "worktree", "remove", "/p/worktrees/wt"] ∧
    "--force" ∈ (WorktreeManager.removeWorktreePath "/p" "/p/worktrees/wt" none).argv := by
  decide

/-- C1 (amended): every call `removeWorktreePath(projectPath, worktreePath,
sessionId?)` performs the single git invocation
`git worktree remove <worktreePath> --force` — `--force` is always included —
and treats "is not a working tree" output as success. -/
theorem c1_remove_always_force (projectPath worktreePath : String) (sessionId : Option String) :
    (WorktreeManager.removeWorktreePath projectPath worktreePath sessionId).argv =
      ["git", "worktree", "remove", worktreePath, "--force"] ∧
    (WorktreeManager.removeWorktreePath projectPath worktreePath
        sessionId).treatAsSuccessIfOutputIncludes = ["is not a working tree"] :=
  ⟨rfl, rfl⟩

/-! ## Claim C2, counterexample -/

/-- C2 counterexample: a git-metadata event starts a 50 ms timer (deadline 50),
but a worktree-content event 10 ms later replaces it with a 200 ms timer
(deadline 210); when the virtual clock reaches 50 ms nothing fires, whereas
without the content event the needs-refresh emission does happen at 50 ms. The
metadata timer is therefore not independent of worktree-content events. -/
theorem c2_metadata_timer_replaced :
    GitFileWatcher.alookup "s"
      (GitFileWatcher.run [.start "s" "w" true, .gitMeta "s"]
        GitFileWatcher.initState).refreshDebounceTimers = some 50 ∧
    GitFileWatcher.alookup "s"
      (GitFileWatcher.run [.start "s" "w" true, .gitMeta "s", .advance 10, .fileChange "s" "f"]
        GitFileWatcher.initState).refreshDebounceTimers = some 210 ∧
    (GitFileWatcher.run
        [.start "s" "w" true, .gitMeta "s", .advance 10, .fileChange "s" "f",
         .advance 40, .elapse "s"]
        GitFileWatcher.initState).emitted = [] ∧
    (GitFileWatcher.run [.start "s" "w" true, .gitMeta "s", .advance 50, .elapse "s"]
        GitFileWatcher.initState).emitted = ["s"] := by
  decide

/-! ## Claim C3, counterexample -/

/-- C3 counterexample: the patterns are anchored to the host `github.com`; for
any other host the parser returns null instead of the owner/repo pair the
claim promises for every host. -/
theorem c3_other_hosts_rejected :
    parseGitHubOwnerRepo "git@gitlab.com:alice/proj" = none ∧
    parseGitHubOwnerRepo "https://gitlab.com/alice/proj" = none := by
  decide

/-! ## Claim C9, counterexample -/

/-- C9 counterexample: on a `.git` file reading ` gitdir: /abs/path` (leading
space) the pattern `^gitdir:\s*(.+)\s*$` does not match the file's text, so the
claim requires null, yet `resolveGitDir` trims the text first and returns the
path. -/
theorem c9_raw_text_not_matched :
    regexGitdirCapture (" gitdir: /abs/path".toList) = none ∧
    resolveGitDir "/w" (.fileEntry (some " gitdir: /abs/path")) = some "/abs/path" := by
  decide

/-! ## Association-list lemmas -/

namespace GitFileWatcher

theorem alookup_ainsert_self {α : Type} (k : String) (v : α) (l : List (String × α)) :
    alookup k (ainsert k v l) = some v := by
  induction l with
  | nil => simp [ainsert, alookup]
  | cons p t ih =>
    by_cases h : p.1 = k
    · simp [ainsert, alookup, h]
    · cases p with
      | mk k' v' =>
        simp only at h
        simp [ainsert, alookup, h, ih]

theorem alookup_ainsert_ne {α : Type} (k k' : String) (v : α) (l : List (String × α))
    (h : k' ≠ k) : alookup k' (ainsert k v l) = alookup k' l := by
  induction l with
  | nil => simp [ainsert, alookup, Ne.symm h]
  | cons p t ih =>
    cases p with
    | mk a b =>
      by_cases ha : a = k
      · subst ha
        simp [ainsert, alookup, Ne.symm h]
      · by_cases ha' : a = k'
        · simp [ainsert, ha, alookup, ha', h]
        · simp [ainsert, ha, alookup, ha', ih]

theorem alookup_aerase_self {α : Type} (k : String) (l : List (String × α)) :
    alookup k (aerase k l) = none := by
  induction l with
  | nil => rfl
  | cons p t ih =>
    cases p with
    | mk a b =>
      simp only [aerase, List.filter_cons] at ih ⊢
      by_cases ha : a = k
      · simpa [ha] using ih
      · simpa [ha, alookup] using ih

theorem alookup_aerase_ne {α : Type} (k k' : String) (l : List (String × α))
    (h : k' ≠ k) : alookup k' (aerase k l) = alookup k' l := by
  induction l with
  | nil => rfl
  | cons p t ih =>
    cases p with
    | mk a b =>
      simp only [aerase, List.filter_cons] at ih ⊢
      by_cases ha : a = k
      · subst ha
        simpa [alookup, Ne.symm h] using ih
      · by_cases ha' : a = k'
        · simp [ha, alookup, ha', h]
        · simp [ha, alookup, ha', ih]

theorem ainsert_of_lookup_eq {α : Type} (k : String) (v : α) (l : List (String × α))
    (h : alookup k l = some v) : ainsert k v l = l := by
  induction l with
  | nil => simp [alookup] at h
  | cons p t ih =>
    cases p with
    | mk a b =>
      by_cases ha : a = k
      · subst ha
        have hb : b = v := by simpa [alookup] using h
        subst hb
        simp [ainsert]
      · simp only [alookup, if_neg ha] at h
        simp [ainsert, ha, ih h]

end GitFileWatcher

/-! ## Watcher step lemmas -/

namespace GitFileWatcher

theorem handleFileChange_eq (s : WatcherState) (sid fn : String) (sess : WatchedSession)
    (h : alookup sid s.watchedSessions = some sess)
    (hfn : shouldIgnoreFile fn = false) :
    handleFileChange sid fn s =
      { s with
        watchedSessions :=
          ainsert sid { sess with lastModified := s.now, pendingRefresh := true }
            s.watchedSessions
        refreshDebounceTimers :=
          ainsert sid (s.now + WORKTREE_DEBOUNCE_MS) s.refreshDebounceTimers } := by
  simp [handleFileChange, hfn, h, scheduleRefreshCheck]

theorem handleFileChange_saturated (s : WatcherState) (sid fn : String) (sess : WatchedSession)
    (h : alookup sid s.watchedSessions = some sess)
    (hlm : sess.lastModified = s.now) (hpr : sess.pendingRefresh = true)
    (ht : alookup sid s.refreshDebounceTimers = some (s.now + WORKTREE_DEBOUNCE_MS))
    (hfn : shouldIgnoreFile fn = false) :
    handleFileChange sid fn s = s := by
  have hsess : { sess with lastModified := s.now, pendingRefresh := true } = sess := by
    cases sess with
    | mk wt lm pr =>
      simp only at hlm hpr
      simp [hlm, hpr]
  rw [handleFileChange_eq s sid fn sess h hfn, hsess,
    ainsert_of_lookup_eq sid sess s.watchedSessions h,
    ainsert_of_lookup_eq sid (s.now + WORKTREE_DEBOUNCE_MS) s.refreshDebounceTimers ht]

theorem run_cons (e : WEvent) (evs : List WEvent) (s : WatcherState) :
    run (e :: evs) s = run evs (step e s) := rfl

theorem run_append (a b : List WEvent) (s : WatcherState) :
    run (a ++ b) s = run b (run a s) := by
  simp [run, List.foldl_append]

theorem run_fileChanges_saturated (fns : List String) (s : WatcherState) (sid : String)
    (sess : WatchedSession)
    (h : alookup sid s.watchedSessions = some sess)
    (hlm : sess.lastModified = s.now) (hpr : sess.pendingRefresh = true)
    (ht : alookup sid s.refreshDebounceTimers = some (s.now + WORKTREE_DEBOUNCE_MS))
    (hfns : ∀ fn ∈ fns, shouldIgnoreFile fn = false) :
    run (fns.map (fun fn => WEvent.fileChange sid fn)) s = s := by
  induction fns with
  | nil => rfl
  | cons f rest ih =>
    rw [List.map_cons, run_cons]
    have hstep : step (.fileChange sid f) s = s :=
      handleFileChange_saturated s sid f sess h hlm hpr ht
        (hfns f (List.mem_cons_self f rest))
    rw [hstep]
    exact ih (fun fn hfn => hfns fn (List.mem_cons_of_mem f hfn))

end GitFileWatcher

/-! ## Claim C2, amended theorem -/

/-- C2 (amended): an event on a watched git-metadata path sets `pendingRefresh`
and (re)starts the session's debounce timer with the faster 50 ms interval
(`GIT_DEBOUNCE_MS`); this timer is shared with worktree-content events, so a
worktree-content event arriving `d` ms later (in particular before the 50 ms
elapse) replaces it with a timer expiring 200 ms after that event. -/
theorem c2_git_metadata_debounce (s : GitFileWatcher.WatcherState) (sid : String)
    (sess : GitFileWatcher.WatchedSession)
    (h : GitFileWatcher.alookup sid s.watchedSessions = some sess) :
    GitFileWatcher.alookup sid
        ((GitFileWatcher.step (.gitMeta sid) s).refreshDebounceTimers) =
      some (s.now + GitFileWatcher.GIT_DEBOUNCE_MS) ∧
    GitFileWatcher.alookup sid ((GitFileWatcher.step (.gitMeta sid) s).watchedSessions) =
      some { sess with lastModified := s.now, pendingRefresh := true } ∧
    (∀ d fn, GitFileWatcher.shouldIgnoreFile fn = false →
      GitFileWatcher.alookup sid
          ((GitFileWatcher.run [.gitMeta sid, .advance d, .fileChange sid fn] s).refreshDebounceTimers) =
        some (s.now + d + GitFileWatcher.WORKTREE_DEBOUNCE_MS)) := by
  refine ⟨?_, ?_, ?_⟩
  · simp [GitFileWatcher.step, GitFileWatcher.handleGitMetadataChange, h,
      GitFileWatcher.scheduleRefreshCheck, GitFileWatcher.alookup_ainsert_self]
  · simp [GitFileWatcher.step, GitFileWatcher.handleGitMetadataChange, h,
      GitFileWatcher.scheduleRefreshCheck, GitFileWatcher.alookup_ainsert_self]
  · intro d fn hfn
    simp [GitFileWatcher.run, GitFileWatcher.step, GitFileWatcher.handleGitMetadataChange, h,
      GitFileWatcher.scheduleRefreshCheck, GitFileWatcher.handleFileChange, hfn,
      GitFileWatcher.alookup_ainsert_self]

/-- C2 witness: in a freshly started session, a metadata event at time 0 yields
the 50 ms deadline, and a content event 10 ms later replaces it with 210. -/
theorem c2_git_metadata_debounce_witness :
    GitFileWatcher.alookup "s"
        ((GitFileWatcher.step (.gitMeta "s")
          (GitFileWatcher.run [.start "s" "w" true] GitFileWatcher.initState)).refreshDebounceTimers) =
      some 50 ∧
    GitFileWatcher.alookup "s"
        ((GitFileWatcher.run [.gitMeta "s", .advance 10, .fileChange "s" "f"]
          (GitFileWatcher.run [.start "s" "w" true] GitFileWatcher.initState)).refreshDebounceTimers) =
      some 210 := by
  have h := c2_git_metadata_debounce
    (GitFileWatcher.run [.start "s" "w" true] GitFileWatcher.initState) "s"
    ⟨"w", 0, false⟩ (by decide)
  exact ⟨h.1, h.2.2 10 "f" (by decide)⟩

/-! ## Claim C7 -/

/-- C7: (a) when a debounce timer elapses with `pendingRefresh` still set, the
watcher clears the flag and emits exactly one needs-refresh signal carrying
that sessionId; (b) each accepted event before the elapse cancels and restarts
the timer, so a nonempty burst of accepted events followed by the elapse
produces exactly one signal; (c) an elapsed timer with `pendingRefresh` clear
emits nothing. -/
theorem c7_single_emission_per_burst :
    (∀ (s : GitFileWatcher.WatcherState) (sid : String)
        (sess : GitFileWatcher.WatchedSession) (d : Nat),
      GitFileWatcher.alookup sid s.watchedSessions = some sess →
      sess.pendingRefresh = true →
      GitFileWatcher.alookup sid s.refreshDebounceTimers = some d →
      d ≤ s.now →
      (GitFileWatcher.step (.elapse sid) s).emitted = s.emitted ++ [sid] ∧
      GitFileWatcher.alookup sid ((GitFileWatcher.step (.elapse sid) s).watchedSessions) =
        some { sess with pendingRefresh := false }) ∧
    (∀ (s : GitFileWatcher.WatcherState) (sid : String)
        (sess : GitFileWatcher.WatchedSession) (fns : List String),
      GitFileWatcher.alookup sid s.watchedSessions = some sess →
      fns ≠ [] →
      (∀ fn ∈ fns, GitFileWatcher.shouldIgnoreFile fn = false) →
      (GitFileWatcher.run
          (fns.map (fun fn => GitFileWatcher.WEvent.fileChange sid fn) ++
            [.advance GitFileWatcher.WORKTREE_DEBOUNCE_MS, .elapse sid]) s).emitted =
        s.emitted ++ [sid]) ∧
    (∀ (s : GitFileWatcher.WatcherState) (sid : String)
        (sess : GitFileWatcher.WatchedSession) (d : Nat),
      GitFileWatcher.alookup sid s.watchedSessions = some sess →
      sess.pendingRefresh = false →
      GitFileWatcher.alookup sid s.refreshDebounceTimers = some d →
      d ≤ s.now →
      (GitFileWatcher.step (.elapse sid) s).emitted = s.emitted) := by
  refine ⟨?_, ?_, ?_⟩
  · intro s sid sess d h hpr ht hd
    constructor
    · simp [GitFileWatcher.step, GitFileWatcher.timerElapse, ht, hd,
        GitFileWatcher.performRefreshCheck, h, hpr]
    · simp [GitFileWatcher.step, GitFileWatcher.timerElapse, ht, hd,
        GitFileWatcher.performRefreshCheck, h, hpr, GitFileWatcher.alookup_ainsert_self]
  · intro s sid sess fns h hne hall
    cases fns with
    | nil => exact absurd rfl hne
    | cons f rest =>
      rw [List.map_cons, List.cons_append, GitFileWatcher.run_cons]
      have hf : GitFileWatcher.shouldIgnoreFile f = false := hall f (List.mem_cons_self f rest)
      have hstep := GitFileWatcher.handleFileChange_eq s sid f sess h hf
      have hstep' : GitFileWatcher.step (.fileChange sid f) s = GitFileWatcher.handleFileChange sid f s := rfl
      rw [hstep', hstep]
      set s1 : GitFileWatcher.WatcherState :=
        { s with
          watchedSessions :=
            GitFileWatcher.ainsert sid { sess with lastModified := s.now, pendingRefresh := true }
              s.watchedSessions
          refreshDebounceTimers :=
            GitFileWatcher.ainsert sid (s.now + GitFileWatcher.WORKTREE_DEBOUNCE_MS)
              s.refreshDebounceTimers } with hs1
      rw [GitFileWatcher.run_append]
      have hsat : GitFileWatcher.run (rest.map (fun fn => GitFileWatcher.WEvent.fileChange sid fn)) s1 = s1 := by
        refine GitFileWatcher.run_fileChanges_saturated rest s1 sid
          { sess with lastModified := s.now, pendingRefresh := true } ?_ ?_ ?_ ?_ ?_
        · simp [hs1, GitFileWatcher.alookup_ainsert_self]
        · simp [hs1]
        · rfl
        · simp [hs1, GitFileWatcher.alookup_ainsert_self]
        · exact fun fn hfn => hall fn (List.mem_cons_of_mem f hfn)
      rw [hsat]
      have hadv : GitFileWatcher.run [.advance GitFileWatcher.WORKTREE_DEBOUNCE_MS, .elapse sid] s1 =
          GitFileWatcher.step (.elapse sid)
            { s1 with now := s1.now + GitFileWatcher.WORKTREE_DEBOUNCE_MS } := rfl
      rw [hadv]
      simp [GitFileWatcher.step, GitFileWatcher.timerElapse, hs1,
        GitFileWatcher.alookup_ainsert_self, GitFileWatcher.performRefreshCheck]
  · intro s sid sess d h hpr ht hd
    simp [GitFileWatcher.step, GitFileWatcher.timerElapse, ht, hd,
      GitFileWatcher.performRefreshCheck, h, hpr]

/-- C7 witness: the three conjuncts at concrete states — an elapsed timer with
the flag set emits `["s"]`, a two-event burst emits exactly one signal, and an
elapsed timer with the flag clear emits nothing. -/
theorem c7_single_emission_per_burst_witness :
    (GitFileWatcher.step (.elapse "s")
        (GitFileWatcher.run [.start "s" "w" true, .gitMeta "s", .advance 50]
          GitFileWatcher.initState)).emitted =
      (GitFileWatcher.run [.start "s" "w" true, .gitMeta "s", .advance 50]
        GitFileWatcher.initState).emitted ++ ["s"] ∧
    (GitFileWatcher.run
        ((["a", "b"].map (fun fn => GitFileWatcher.WEvent.fileChange "s" fn)) ++
          [.advance GitFileWatcher.WORKTREE_DEBOUNCE_MS, .elapse "s"])
        (GitFileWatcher.run [.start "s" "w" true] GitFileWatcher.initState)).emitted =
      (GitFileWatcher.run [.start "s" "w" true] GitFileWatcher.initState).emitted ++ ["s"] ∧
    (GitFileWatcher.step (.elapse "s")
        (⟨[("s", ⟨"w", 0, false⟩)], [("s", 0)], 0, []⟩ : GitFileWatcher.WatcherState)).emitted =
      (⟨[("s", ⟨"w", 0, false⟩)], [("s", 0)], 0, []⟩ : GitFileWatcher.WatcherState).emitted := by
  refine ⟨?_, ?_, ?_⟩
  · exact (c7_single_emission_per_burst.1
      (GitFileWatcher.run [.start "s" "w" true, .gitMeta "s", .advance 50]
        GitFileWatcher.initState) "s" ⟨"w", 0, true⟩ 50 (by decide) rfl (by decide) (by decide)).1
  · exact c7_single_emission_per_burst.2.1
      (GitFileWatcher.run [.start "s" "w" true] GitFileWatcher.initState) "s"
      ⟨"w", 0, false⟩ ["a", "b"] (by decide) (by decide) (by decide)
  · exact c7_single_emission_per_burst.2.2
      (⟨[("s", ⟨"w", 0, false⟩)], [("s", 0)], 0, []⟩ : GitFileWatcher.WatcherState) "s"
      ⟨"w", 0, false⟩ 0 (by decide) rfl (by decide) (by decide)

/-! ## Claim C10 -/

namespace GitFileWatcher

/-- The watcher invariant: every watched session whose `pendingRefresh` flag is
set has a pending debounce timer. -/
def TimerInv (s : WatcherState) : Prop :=
  ∀ sid sess, alookup sid s.watchedSessions = some sess → sess.pendingRefresh = true →
    ∃ d, alookup sid s.refreshDebounceTimers = some d

theorem timerInv_init : TimerInv initState := by
  intro sid sess h
  simp [initState, alookup] at h

theorem startWatching_true_eq (sid wt : String) (s : WatcherState) :
    startWatching sid wt true s =
      { s with
        watchedSessions := ainsert sid ⟨wt, s.now, false⟩ (aerase sid s.watchedSessions)
        refreshDebounceTimers := aerase sid s.refreshDebounceTimers } := by
  simp [startWatching, stopWatching]

theorem startWatching_false_eq (sid wt : String) (s : WatcherState) :
    startWatching sid wt false s = stopWatching sid s := by
  simp [startWatching]

theorem handleFileChange_ignored (s : WatcherState) (sid fn : String)
    (hig : shouldIgnoreFile fn = true) : handleFileChange sid fn s = s := by
  simp [handleFileChange, hig]

theorem handleFileChange_none (s : WatcherState) (sid fn : String)
    (hig : shouldIgnoreFile fn = false)
    (hses : alookup sid s.watchedSessions = none) : handleFileChange sid fn s = s := by
  simp [handleFileChange, hig, hses]

theorem handleWorktreeUnknownChange_none (s : WatcherState) (sid : String)
    (hses : alookup sid s.watchedSessions = none) :
    handleWorktreeUnknownChange sid s = s := by
  simp [handleWorktreeUnknownChange, hses]

theorem handleWorktreeUnknownChange_eq (s : WatcherState) (sid : String)
    (sess : WatchedSession) (hses : alookup sid s.watchedSessions = some sess) :
    handleWorktreeUnknownChange sid s =
      { s with
        watchedSessions :=
          ainsert sid { sess with lastModified := s.now, pendingRefresh := true }
            s.watchedSessions
        refreshDebounceTimers :=
          ainsert sid (s.now + WORKTREE_DEBOUNCE_MS) s.refreshDebounceTimers } := by
  simp [handleWorktreeUnknownChange, hses, scheduleRefreshCheck]

theorem handleGitMetadataChange_none (s : WatcherState) (sid : String)
    (hses : alookup sid s.watchedSessions = none) :
    handleGitMetadataChange sid s = s := by
  simp [handleGitMetadataChange, hses]

theorem handleGitMetadataChange_eq (s : WatcherState) (sid : String)
    (sess : WatchedSession) (hses : alookup sid s.watchedSessions = some sess) :
    handleGitMetadataChange sid s =
      { s with
        watchedSessions :=
          ainsert sid { sess with lastModified := s.now, pendingRefresh := true }
            s.watchedSessions
        refreshDebounceTimers :=
          ainsert sid (s.now + GIT_DEBOUNCE_MS) s.refreshDebounceTimers } := by
  simp [handleGitMetadataChange, hses, scheduleRefreshCheck]

theorem timerElapse_none (s : WatcherState) (sid : String)
    (htm : alookup sid s.refreshDebounceTimers = none) : timerElapse sid s = s := by
  simp [timerElapse, htm]

theorem timerElapse_future (s : WatcherState) (sid : String) (d : Nat)
    (htm : alookup sid s.refreshDebounceTimers = some d) (hgt : ¬d ≤ s.now) :
    timerElapse sid s = s := by
  simp [timerElapse, htm, hgt]

theorem timerElapse_fire (s : WatcherState) (sid : String) (d : Nat)
    (htm : alookup sid s.refreshDebounceTimers = some d) (hle : d ≤ s.now) :
    timerElapse sid s =
      performRefreshCheck sid
        { s with refreshDebounceTimers := aerase sid s.refreshDebounceTimers } := by
  simp [timerElapse, htm, hle]

theorem performRefreshCheck_none (s : WatcherState) (sid : String)
    (hses : alookup sid s.watchedSessions = none) : performRefreshCheck sid s = s := by
  simp [performRefreshCheck, hses]

theorem performRefreshCheck_flag (s : WatcherState) (sid : String) (sess : WatchedSession)
    (hses : alookup sid s.watchedSessions = some sess) (hpr : sess.pendingRefresh = true) :
    performRefreshCheck sid s =
      { s with
        watchedSessions := ainsert sid { sess with pendingRefresh := false } s.watchedSessions
        emitted := s.emitted ++ [sid] } := by
  simp [performRefreshCheck, hses, hpr]

theorem performRefreshCheck_noflag (s : WatcherState) (sid : String) (sess : WatchedSession)
    (hses : alookup sid s.watchedSessions = some sess) (hpr : sess.pendingRefresh = false) :
    performRefreshCheck sid s = s := by
  simp [performRefreshCheck, hses, hpr]

theorem timerInv_step (e : WEvent) (s : WatcherState) (hInv : TimerInv s) :
    TimerInv (step e s) := by
  cases e with
  | start sid wt ok =>
    have hstep : step (WEvent.start sid wt ok) s = startWatching sid wt ok s := rfl
    rw [hstep]
    cases ok with
    | true =>
      rw [startWatching_true_eq]
      intro sid' sess' h' hpr'
      by_cases heq : sid' = sid
      · subst heq
        rw [alookup_ainsert_self] at h'
        cases h'
        simp at hpr'
      · rw [alookup_ainsert_ne sid sid' _ _ heq, alookup_aerase_ne sid sid' _ heq] at h'
        obtain ⟨d, hd⟩ := hInv sid' sess' h' hpr'
        exact ⟨d, by rw [alookup_aerase_ne sid sid' _ heq]; exact hd⟩
    | false =>
      rw [startWatching_false_eq]
      intro sid' sess' h' hpr'
      by_cases heq : sid' = sid
      · subst heq
        simp only [stopWatching] at h'
        rw [alookup_aerase_self] at h'
        cases h'
      · simp only [stopWatching] at h' ⊢
        rw [alookup_aerase_ne sid sid' _ heq] at h'
        obtain ⟨d, hd⟩ := hInv sid' sess' h' hpr'
        exact ⟨d, by rw [alookup_aerase_ne sid sid' _ heq]; exact hd⟩
  | stop sid =>
    intro sid' sess' h' hpr'
    by_cases heq : sid' = sid
    · subst heq
      simp only [step, stopWatching] at h'
      rw [alookup_aerase_self] at h'
      cases h'
    · simp only [step, stopWatching] at h' ⊢
      rw [alookup_aerase_ne sid sid' _ heq] at h'
      obtain ⟨d, hd⟩ := hInv sid' sess' h' hpr'
      exact ⟨d, by rw [alookup_aerase_ne sid sid' _ heq]; exact hd⟩
  | fileChange sid fn =>
    have hstep : step (WEvent.fileChange sid fn) s = handleFileChange sid fn s := rfl
    rw [hstep]
    by_cases hig : shouldIgnoreFile fn = true
    · rw [handleFileChange_ignored s sid fn hig]
      exact hInv
    · have hig' : shouldIgnoreFile fn = false := by
        cases h : shouldIgnoreFile fn
        · rfl
        · exact absurd h hig
      cases hses : alookup sid s.watchedSessions with
      | none =>
        rw [handleFileChange_none s sid fn hig' hses]
        exact hInv
      | some sess =>
        rw [handleFileChange_eq s sid fn sess hses hig']
        intro sid' sess' h' hpr'
        by_cases heq : sid' = sid
        · subst heq
          exact ⟨s.now + WORKTREE_DEBOUNCE_MS, alookup_ainsert_self _ _ _⟩
        · rw [alookup_ainsert_ne sid sid' _ _ heq] at h'
          obtain ⟨d, hd⟩ := hInv sid' sess' h' hpr'
          exact ⟨d, by rw [alookup_ainsert_ne sid sid' _ _ heq]; exact hd⟩
  | unknownChange sid =>
    have hstep : step (WEvent.unknownChange sid) s = handleWorktreeUnknownChange sid s := rfl
    rw [hstep]
    cases hses : alookup sid s.watchedSessions with
    | none =>
      rw [handleWorktreeUnknownChange_none s sid hses]
      exact hInv
    | some sess =>
      rw [handleWorktreeUnknownChange_eq s sid sess hses]
      intro sid' sess' h' hpr'
      by_cases heq : sid' = sid
      · subst heq
        exact ⟨s.now + WORKTREE_DEBOUNCE_MS, alookup_ainsert_self _ _ _⟩
      · rw [alookup_ainsert_ne sid sid' _ _ heq] at h'
        obtain ⟨d, hd⟩ := hInv sid' sess' h' hpr'
        exact ⟨d, by rw [alookup_ainsert_ne sid sid' _ _ heq]; exact hd⟩
  | gitMeta sid =>
    have hstep : step (WEvent.gitMeta sid) s = handleGitMetadataChange sid s := rfl
    rw [hstep]
    cases hses : alookup sid s.watchedSessions with
    | none =>
      rw [handleGitMetadataChange_none s sid hses]
      exact hInv
    | some sess =>
      rw [handleGitMetadataChange_eq s sid sess hses]
      intro sid' sess' h' hpr'
      by_cases heq : sid' = sid
      · subst heq
        exact ⟨s.now + GIT_DEBOUNCE_MS, alookup_ainsert_self _ _ _⟩
      · rw [alookup_ainsert_ne sid sid' _ _ heq] at h'
        obtain ⟨d, hd⟩ := hInv sid' sess' h' hpr'
        exact ⟨d, by rw [alookup_ainsert_ne sid sid' _ _ heq]; exact hd⟩
  | elapse sid =>
    have hstep : step (WEvent.elapse sid) s = timerElapse sid s := rfl
    rw [hstep]
    cases htm : alookup sid s.refreshDebounceTimers with
    | none =>
      rw [timerElapse_none s sid htm]
      exact hInv
    | some d0 =>
      by_cases hle : d0 ≤ s.now
      · rw [timerElapse_fire s sid d0 htm hle]
        cases hses : alookup sid s.watchedSessions with
        | none =>
          rw [performRefreshCheck_none _ sid (by simpa using hses)]
          intro sid' sess' h' hpr'
          simp only at h'
          by_cases heq : sid' = sid
          · subst heq
            rw [h'] at hses
            cases hses
          · rw [alookup_aerase_ne sid sid' _ heq]
            exact hInv sid' sess' h' hpr'
        | some sess =>
          by_cases hpr : sess.pendingRefresh = true
          · rw [performRefreshCheck_flag _ sid sess (by simpa using hses) hpr]
            intro sid' sess' h' hpr'
            simp only at h'
            by_cases heq : sid' = sid
            · subst heq
              rw [alookup_ainsert_self] at h'
              cases h'
              simp at hpr'
            · rw [alookup_ainsert_ne sid sid' _ _ heq] at h'
              rw [alookup_aerase_ne sid sid' _ heq]
              exact hInv sid' sess' h' hpr'
          · have hpr0 : sess.pendingRefresh = false := by
              cases h : sess.pendingRefresh
              · rfl
              · exact absurd h hpr
            rw [performRefreshCheck_noflag _ sid sess (by simpa using hses) hpr0]
            intro sid' sess' h' hpr'
            simp only at h'
            by_cases heq : sid' = sid
            · subst heq
              rw [h'] at hses
              cases hses
              rw [hpr'] at hpr0
              cases hpr0
            · rw [alookup_aerase_ne sid sid' _ heq]
              exact hInv sid' sess' h' hpr'
      · rw [timerElapse_future s sid d0 htm hle]
        exact hInv
  | advance d =>
    intro sid' sess' h' hpr'
    simp only [step] at h' ⊢
    exact hInv sid' sess' h' hpr'

end GitFileWatcher

namespace GitFileWatcher

theorem timerInv_run (evs : List WEvent) (s : WatcherState) (h : TimerInv s) :
    TimerInv (run evs s) := by
  induction evs generalizing s with
  | nil => exact h
  | cons e rest ih => exact ih (step e s) (timerInv_step e s h)

end GitFileWatcher

/-! ## Claim C10 theorem -/

/-- C10: in every reachable watcher state, a watched session with
`pendingRefresh` set has a pending debounce timer; consequently, once the clock
reaches that timer's deadline and it fires, a needs-refresh signal carrying the
sessionId is emitted. -/
theorem c10_pending_implies_timer (evs : List GitFileWatcher.WEvent) :
    GitFileWatcher.TimerInv (GitFileWatcher.run evs GitFileWatcher.initState) ∧
    (∀ sid sess,
      GitFileWatcher.alookup sid
        (GitFileWatcher.run evs GitFileWatcher.initState).watchedSessions = some sess →
      sess.pendingRefresh = true →
      ∃ d,
        GitFileWatcher.alookup sid
          (GitFileWatcher.run evs GitFileWatcher.initState).refreshDebounceTimers = some d ∧
        (GitFileWatcher.run (evs ++ [.advance d, .elapse sid])
          GitFileWatcher.initState).emitted =
          (GitFileWatcher.run evs GitFileWatcher.initState).emitted ++ [sid]) := by
  have hInv : GitFileWatcher.TimerInv (GitFileWatcher.run evs GitFileWatcher.initState) :=
    GitFileWatcher.timerInv_run evs GitFileWatcher.initState GitFileWatcher.timerInv_init
  refine ⟨hInv, ?_⟩
  intro sid sess hses hpr
  obtain ⟨d, hd⟩ := hInv sid sess hses hpr
  refine ⟨d, hd, ?_⟩
  rw [GitFileWatcher.run_append]
  set s0 := GitFileWatcher.run evs GitFileWatcher.initState with hs0
  have h1 : GitFileWatcher.run [.advance d, .elapse sid] s0 =
      GitFileWatcher.timerElapse sid { s0 with now := s0.now + d } := rfl
  rw [h1]
  have htm1 : GitFileWatcher.alookup sid
      ({ s0 with now := s0.now + d } : GitFileWatcher.WatcherState).refreshDebounceTimers =
      some d := hd
  rw [GitFileWatcher.timerElapse_fire _ sid d htm1 (Nat.le_add_left d s0.now)]
  have hses1 : GitFileWatcher.alookup sid
      ({ { s0 with now := s0.now + d } with
          refreshDebounceTimers :=
            GitFileWatcher.aerase sid
              ({ s0 with now := s0.now + d } : GitFileWatcher.WatcherState).refreshDebounceTimers } :
        GitFileWatcher.WatcherState).watchedSessions = some sess := hses
  rw [GitFileWatcher.performRefreshCheck_flag _ sid sess hses1 hpr]

/-- C10 witness: after a start and a metadata event the session is flagged, and
advancing by the timer's deadline then firing it emits the signal. -/
theorem c10_pending_implies_timer_witness :
    ∃ d,
      GitFileWatcher.alookup "s"
        (GitFileWatcher.run [.start "s" "w" true, .gitMeta "s"]
          GitFileWatcher.initState).refreshDebounceTimers = some d ∧
      (GitFileWatcher.run ([.start "s" "w" true, .gitMeta "s"] ++ [.advance d, .elapse "s"])
        GitFileWatcher.initState).emitted =
        (GitFileWatcher.run [.start "s" "w" true, .gitMeta "s"]
          GitFileWatcher.initState).emitted ++ ["s"] :=
  (c10_pending_implies_timer [.start "s" "w" true, .gitMeta "s"]).2 "s"
    ⟨"w", 0, true⟩ (by decide) rfl

/-! ## Claim C8 preparation -/

theorem bool_eq_of_iff {a b : Bool} (h : a = true ↔ b = true) : a = b := by
  cases a <;> cases b <;> simp_all

namespace GitFileWatcher

theorem string_beq_eq_toList_beq (a b : String) : (a == b) = (a.toList == b.toList) := by
  apply bool_eq_of_iff
  simp only [beq_iff_eq]
  constructor
  · intro h; rw [h]
  · intro h
    cases a with
    | mk da =>
      cases b with
      | mk db =>
        simp only [String.toList] at h
        simp [h]

theorem exact_pattern_eq_basename (fn p : String) (hp : p.toList ≠ [])
    (hps : '/' ∉ p.toList) :
    ((fn == p) || strEnds fn.toList ('/' :: p.toList)) =
      (basenameOfL fn.toList == p.toList) := by
  rw [string_beq_eq_toList_beq]
  apply bool_eq_of_iff
  simp only [Bool.or_eq_true, beq_iff_eq, strEnds_iff,
    basenameOfL_eq_iff fn.toList p.toList hp hps]

theorem matches_dotgit (fn : String) :
    matchesIgnorePattern fn ".git/" =
      (strStarts fn.toList ".git/".toList || strHas fn.toList "/.git/".toList) := rfl

theorem matches_node_modules (fn : String) :
    matchesIgnorePattern fn "node_modules/" =
      (strStarts fn.toList "node_modules/".toList ||
        strHas fn.toList "/node_modules/".toList) := rfl

theorem matches_dsstore (fn : String) :
    matchesIgnorePattern fn ".DS_Store" =
      ((fn == ".DS_Store") || strEnds fn.toList ('/' :: ".DS_Store".toList)) := rfl

theorem matches_thumbs (fn : String) :
    matchesIgnorePattern fn "thumbs.db" =
      ((fn == "thumbs.db") || strEnds fn.toList ('/' :: "thumbs.db".toList)) := rfl

theorem matches_swp (fn : String) :
    matchesIgnorePattern fn "*.swp" = strEnds fn.toList ".swp".toList := rfl

theorem matches_swo (fn : String) :
    matchesIgnorePattern fn "*.swo" = strEnds fn.toList ".swo".toList := rfl

theorem matches_tilde (fn : String) :
    matchesIgnorePattern fn "*~" = strEnds fn.toList ['~'] := rfl

theorem matches_dothash (fn : String) :
    matchesIgnorePattern fn ".#*" =
      (strStarts (basenameOfL fn.toList) ".#".toList ||
        (strStarts (basenameOfL fn.toList) ['#'] && strEnds (basenameOfL fn.toList) ['#'])) := rfl

theorem matches_hashhash (fn : String) :
    matchesIgnorePattern fn "#*#" =
      (strStarts (basenameOfL fn.toList) ".#".toList ||
        (strStarts (basenameOfL fn.toList) ['#'] && strEnds (basenameOfL fn.toList) ['#'])) := rfl

theorem shouldIgnoreFile_eq_spec (fn : String) : shouldIgnoreFile fn = ignoredBySpec fn := by
  have e1 : ('/' :: (".git/".toList)) = "/.git/".toList := by decide
  have e2 : ('/' :: ("node_modules/".toList)) = "/node_modules/".toList := by decide
  unfold shouldIgnoreFile IGNORE_PATTERNS ignoredBySpec
  simp only [List.any_cons, List.any_nil, Bool.or_false]
  rw [matches_dotgit, matches_node_modules, matches_dsstore, matches_thumbs, matches_swp,
    matches_swo, matches_tilde, matches_dothash, matches_hashhash,
    exact_pattern_eq_basename fn ".DS_Store" (by decide) (by decide),
    exact_pattern_eq_basename fn "thumbs.db" (by decide) (by decide)]
  simp [Bool.or_assoc]

end GitFileWatcher

/-! ## Claim C8 theorem -/

/-- C8: the worktree-content ignore filter accepts exactly the claimed
patterns; a dropped event changes no watcher state (hence never leads to a
needs-refresh signal); and the filter is never applied to git-metadata events,
which set `pendingRefresh` for any watched session unconditionally. -/
theorem c8_ignore_filter :
    (∀ fn : String, GitFileWatcher.shouldIgnoreFile fn = GitFileWatcher.ignoredBySpec fn) ∧
    (∀ (s : GitFileWatcher.WatcherState) (sid fn : String),
      GitFileWatcher.shouldIgnoreFile fn = true →
      GitFileWatcher.step (.fileChange sid fn) s = s) ∧
    (∀ (s : GitFileWatcher.WatcherState) (sid : String)
        (sess : GitFileWatcher.WatchedSession),
      GitFileWatcher.alookup sid s.watchedSessions = some sess →
      GitFileWatcher.alookup sid ((GitFileWatcher.step (.gitMeta sid) s).watchedSessions) =
        some { sess with lastModified := s.now, pendingRefresh := true }) := by
  refine ⟨GitFileWatcher.shouldIgnoreFile_eq_spec, ?_, ?_⟩
  · intro s sid fn hig
    exact GitFileWatcher.handleFileChange_ignored s sid fn hig
  · intro s sid sess hses
    have hstep : GitFileWatcher.step (.gitMeta sid) s =
        GitFileWatcher.handleGitMetadataChange sid s := rfl
    rw [hstep, GitFileWatcher.handleGitMetadataChange_eq s sid sess hses]
    exact GitFileWatcher.alookup_ainsert_self _ _ _

/-- C8 witness: a `.DS_Store` write is dropped without touching the state, and
a metadata event on a path that the content filter would drop (`.git/index`)
still flags the session. -/
theorem c8_ignore_filter_witness :
    GitFileWatcher.step (.fileChange "s" "sub/.DS_Store")
      (GitFileWatcher.run [.start "s" "w" true] GitFileWatcher.initState) =
      GitFileWatcher.run [.start "s" "w" true] GitFileWatcher.initState ∧
    GitFileWatcher.alookup "s"
      ((GitFileWatcher.step (.gitMeta "s")
        (GitFileWatcher.run [.start "s" "w" true] GitFileWatcher.initState)).watchedSessions) =
      some ⟨"w", 0, true⟩ := by
  constructor
  · exact c8_ignore_filter.2.1
      (GitFileWatcher.run [.start "s" "w" true] GitFileWatcher.initState) "s" "sub/.DS_Store"
      (by decide)
  · exact c8_ignore_filter.2.2
      (GitFileWatcher.run [.start "s" "w" true] GitFileWatcher.initState) "s"
      ⟨"w", 0, false⟩ (by decide)

/-! ## Claim C4 preparation -/

namespace WorktreeManager

/-- The last two steps of the claimed priority order: local current branch
(`rev-parse --abbrev-ref HEAD`), else the literal `main` when it is
unavailable. -/
def localCurrentOrMain (env : GitEnv) : String :=
  match env.abbrevRefHeadRaw with
  | some s => jsTrim s
  | none => "main"

/-- Steps 2-5 of the claimed priority order, entered when no explicit base
branch is given: remote symbolic HEAD, then `main`/`master` under the remote,
then the local fallback. -/
def remoteOrLocalBranch (env : GitEnv) (baseRemote : Option String) : String :=
  match baseRemote with
  | some r =>
    match remoteHeadName env r with
    | some nm => nm
    | none =>
      if env.remoteRefExists r "main" then "main"
      else if env.remoteRefExists r "master" then "master"
      else localCurrentOrMain env
  | none => localCurrentOrMain env

/-- The claimed base-branch resolution order: explicit `baseBranch` parameter
(if usable), then the remote-derived candidates, then the local fallbacks. -/
def resolveMainBranchSpec (env : GitEnv) (baseBranch : Option String)
    (baseRemote : Option String) : String :=
  match baseBranch with
  | some b => if b = "" then remoteOrLocalBranch env baseRemote else b
  | none => remoteOrLocalBranch env baseRemote

theorem resolveMainBranchTraced_snd_fallback (env : GitEnv) (bb : Option String)
    (br : Option String)
    (h : (match bb with | some b => !(b = "") | none => false) = false) :
    (resolveMainBranchTraced env bb br).2 = remoteOrLocalBranch env br := by
  unfold resolveMainBranchTraced
  rw [h]
  simp only [Bool.false_eq_true, if_false]
  cases br with
  | none =>
    cases h3 : env.abbrevRefHeadRaw <;> simp [h3, remoteOrLocalBranch, localCurrentOrMain]
  | some r =>
    cases hrh : remoteHeadName env r with
    | some nm => simp [hrh, remoteOrLocalBranch]
    | none =>
      by_cases h1 : env.remoteRefExists r "main"
      · simp [hrh, h1, remoteOrLocalBranch]
      · by_cases h2 : env.remoteRefExists r "master"
        · simp [hrh, h1, h2, remoteOrLocalBranch]
        · cases h3 : env.abbrevRefHeadRaw <;>
            simp [hrh, h1, h2, h3, remoteOrLocalBranch, localCurrentOrMain]

theorem resolveMainBranchTraced_snd (env : GitEnv) (bb br : Option String) :
    (resolveMainBranchTraced env bb br).2 = resolveMainBranchSpec env bb br := by
  cases bb with
  | none =>
    rw [resolveMainBranchTraced_snd_fallback env none br rfl]
    rfl
  | some b =>
    by_cases hb : b = ""
    · rw [resolveMainBranchTraced_snd_fallback env (some b) br (by simp [hb])]
      simp [resolveMainBranchSpec, hb]
    · unfold resolveMainBranchTraced resolveMainBranchSpec
      simp [hb]

end WorktreeManager

/-! ## Claim C4 theorem -/

theorem createWorktreeFinish_ok_baseBranch (env : WorktreeManager.GitEnv)
    (worktreePath branchName : String) (baseBranch baseRemote : Option String)
    (tr6 tr : List (List String)) (res : WorktreeManager.CreateResult)
    (h : WorktreeManager.createWorktreeFinish env worktreePath branchName baseBranch baseRemote tr6 =
      (tr, .ok res)) :
    res.baseBranch = WorktreeManager.resolveMainBranchSpec env baseBranch baseRemote := by
  simp only [WorktreeManager.createWorktreeFinish] at h
  repeat' split at h
  all_goals
    first
    | exact Except.noConfusion (congrArg Prod.snd h)
    | (injection (congrArg Prod.snd h) with h3
       rw [← h3]
       exact WorktreeManager.resolveMainBranchTraced_snd env baseBranch _)

/-- C4: whenever `createWorktree` succeeds, the `baseBranch` field of the
returned record is the name resolved by the claimed priority chain — explicit
parameter, chosen remote's symbolic HEAD, first of main/master under the
chosen remote, local current branch, literal "main" — not necessarily the
caller's input. -/
theorem c4_base_branch_priority (env : WorktreeManager.GitEnv)
    (projectPath name : String) (branch baseBranch worktreeFolder : Option String)
    (tr : List (List String)) (res : WorktreeManager.CreateResult)
    (h : WorktreeManager.createWorktree env projectPath name branch baseBranch worktreeFolder =
      (tr, .ok res)) :
    res.baseBranch =
      WorktreeManager.resolveMainBranchSpec env baseBranch
        (WorktreeManager.chooseBaseRemote (WorktreeManager.getRemoteUrlM env "origin")
          (WorktreeManager.getRemoteUrlM env "upstream")) := by
  simp only [WorktreeManager.createWorktree] at h
  repeat' split at h
  all_goals
    first
    | exact Except.noConfusion (congrArg Prod.snd h)
    | exact createWorktreeFinish_ok_baseBranch env _ _ baseBranch _ _ tr res h

/-! ## Claim C5 preparation -/

namespace WorktreeManager

/-- Whether the git repo probing/initialization phase succeeds, i.e. execution
reaches the remote-selection step. -/
def phase1Ok (env : GitEnv) : Bool :=
  (env.insideWorkTree || env.initOk) && (env.hasCommits || env.commitOk)

/-- Recognizer for `git fetch ...` invocations. -/
def isFetchCmd : List String → Bool
  | "git" :: "fetch" :: _ => true
  | _ => false

/-- Recognizer for `git worktree add ...` invocations. -/
def isWorktreeAddCmd : List String → Bool
  | "git" :: "worktree" :: "add" :: _ => true
  | _ => false

theorem resolveMainBranchTraced_no_fetch (env : GitEnv) (bb br : Option String) :
    ((resolveMainBranchTraced env bb br).1).filter isFetchCmd = [] := by
  unfold resolveMainBranchTraced
  repeat' split
  all_goals (try simp [isFetchCmd])
  all_goals ((try split_ifs) <;> simp [isFetchCmd])

theorem resolveMainBranchTraced_no_add (env : GitEnv) (bb br : Option String) :
    ((resolveMainBranchTraced env bb br).1).filter isWorktreeAddCmd = [] := by
  unfold resolveMainBranchTraced
  repeat' split
  all_goals (try simp [isWorktreeAddCmd])
  all_goals ((try split_ifs) <;> simp [isWorktreeAddCmd])

theorem createWorktreeFinish_filter_fetch (env : GitEnv) (wp bn : String)
    (bb br : Option String) (tr6 : List (List String)) :
    ((createWorktreeFinish env wp bn bb br tr6).1).filter isFetchCmd =
      tr6.filter isFetchCmd := by
  simp only [createWorktreeFinish]
  repeat' split
  all_goals
    simp [List.filter_append, resolveMainBranchTraced_no_fetch, isFetchCmd]

set_option maxHeartbeats 3200000 in
theorem createWorktree_filter_fetch (env : GitEnv) (projectPath name : String)
    (branch baseBranch worktreeFolder : Option String)
    (h : phase1Ok env = true) :
    ((createWorktree env projectPath name branch baseBranch worktreeFolder).1).filter isFetchCmd =
      (match chooseBaseRemote (getRemoteUrlM env "origin") (getRemoteUrlM env "upstream") with
       | some r => [["git", "fetch", r]]
       | none => []) := by
  simp only [phase1Ok, Bool.and_eq_true] at h
  obtain ⟨hp1, hp2⟩ := h
  cases hiw : env.insideWorkTree <;> cases hio : env.initOk <;>
    cases hhc : env.hasCommits <;> cases hco : env.commitOk <;>
    cases hbr : chooseBaseRemote (getRemoteUrlM env "origin") (getRemoteUrlM env "upstream") <;>
    first
    | (exfalso; simp_all; done)
    | (simp only [createWorktree, hiw, hio, hhc, hco, hbr]
       repeat' split
       all_goals
         simp_all [List.filter_append, createWorktreeFinish_filter_fetch, isFetchCmd, hbr])

end WorktreeManager

/-! ## Claim C5 theorem -/

/-- C5: once the repo-initialization phase succeeds, the fetched remote is
determined as claimed — when both remote URLs are obtained and origin is a
same-repo-different-owner fork of upstream, `git fetch upstream` is run and
`git fetch origin` is not; otherwise origin is preferred if present, else
upstream, else nothing is fetched. -/
theorem c5_fetch_remote_selection (env : WorktreeManager.GitEnv)
    (projectPath name : String) (branch baseBranch worktreeFolder : Option String)
    (h : WorktreeManager.phase1Ok env = true) :
    (∀ ov uv, WorktreeManager.getRemoteUrlM env "origin" = some ov →
      WorktreeManager.getRemoteUrlM env "upstream" = some uv →
      isForkOfUpstream ov uv = true →
      ((WorktreeManager.createWorktree env projectPath name branch baseBranch
          worktreeFolder).1.filter WorktreeManager.isFetchCmd = [["git", "fetch", "upstream"]] ∧
        ["git", "fetch", "origin"] ∉
          (WorktreeManager.createWorktree env projectPath name branch baseBranch
            worktreeFolder).1)) ∧
    (∀ ov uv, WorktreeManager.getRemoteUrlM env "origin" = some ov →
      WorktreeManager.getRemoteUrlM env "upstream" = some uv →
      isForkOfUpstream ov uv = false →
      (WorktreeManager.createWorktree env projectPath name branch baseBranch
        worktreeFolder).1.filter WorktreeManager.isFetchCmd = [["git", "fetch", "origin"]]) ∧
    (∀ ov, WorktreeManager.getRemoteUrlM env "origin" = some ov →
      WorktreeManager.getRemoteUrlM env "upstream" = none →
      (WorktreeManager.createWorktree env projectPath name branch baseBranch
        worktreeFolder).1.filter WorktreeManager.isFetchCmd = [["git", "fetch", "origin"]]) ∧
    (∀ uv, WorktreeManager.getRemoteUrlM env "origin" = none →
      WorktreeManager.getRemoteUrlM env "upstream" = some uv →
      (WorktreeManager.createWorktree env projectPath name branch baseBranch
        worktreeFolder).1.filter WorktreeManager.isFetchCmd = [["git", "fetch", "upstream"]]) ∧
    (WorktreeManager.getRemoteUrlM env "origin" = none →
      WorktreeManager.getRemoteUrlM env "upstream" = none →
      (WorktreeManager.createWorktree env projectPath name branch baseBranch
        worktreeFolder).1.filter WorktreeManager.isFetchCmd = []) := by
  have key := WorktreeManager.createWorktree_filter_fetch env projectPath name branch
    baseBranch worktreeFolder h
  refine ⟨?_, ?_, ?_, ?_, ?_⟩
  · intro ov uv ho hu hf
    have hbr : WorktreeManager.chooseBaseRemote (WorktreeManager.getRemoteUrlM env "origin")
        (WorktreeManager.getRemoteUrlM env "upstream") = some "upstream" := by
      rw [ho, hu]
      simp [WorktreeManager.chooseBaseRemote, hf]
    rw [hbr] at key
    refine ⟨key, ?_⟩
    intro hmem
    have hin : ["git", "fetch", "origin"] ∈
        (WorktreeManager.createWorktree env projectPath name branch baseBranch
          worktreeFolder).1.filter WorktreeManager.isFetchCmd :=
      List.mem_filter.mpr ⟨hmem, by decide⟩
    rw [key] at hin
    simp at hin
  · intro ov uv ho hu hf
    have hbr : WorktreeManager.chooseBaseRemote (WorktreeManager.getRemoteUrlM env "origin")
        (WorktreeManager.getRemoteUrlM env "upstream") = some "origin" := by
      rw [ho, hu]
      simp [WorktreeManager.chooseBaseRemote, hf]
    rw [hbr] at key
    exact key
  · intro ov ho hu
    have hbr : WorktreeManager.chooseBaseRemote (WorktreeManager.getRemoteUrlM env "origin")
        (WorktreeManager.getRemoteUrlM env "upstream") = some "origin" := by
      rw [ho, hu]
      simp [WorktreeManager.chooseBaseRemote]
    rw [hbr] at key
    exact key
  · intro uv ho hu
    have hbr : WorktreeManager.chooseBaseRemote (WorktreeManager.getRemoteUrlM env "origin")
        (WorktreeManager.getRemoteUrlM env "upstream") = some "upstream" := by
      rw [ho, hu]
      simp [WorktreeManager.chooseBaseRemote]
    rw [hbr] at key
    exact key
  · intro ho hu
    have hbr : WorktreeManager.chooseBaseRemote (WorktreeManager.getRemoteUrlM env "origin")
        (WorktreeManager.getRemoteUrlM env "upstream") = none := by
      rw [ho, hu]
      simp [WorktreeManager.chooseBaseRemote]
    rw [hbr] at key
    exact key

/-! ## Claim C6 preparation -/

namespace WorktreeManager

/-- Whether `createWorktree` reaches the fresh-branch check: the
initialization phase succeeds, and — when a base remote was chosen — the fetch
and the base-commit verification both succeed. -/
def reachesBranchCheck (env : GitEnv) (bb : Option String) : Bool :=
  phase1Ok env &&
  (match chooseBaseRemote (getRemoteUrlM env "origin") (getRemoteUrlM env "upstream") with
   | some r =>
     env.fetchOk r &&
       env.verifyCommitOk (r ++ "/" ++ (resolveMainBranchTraced env bb (some r)).2)
   | none => true)

theorem createWorktreeFinish_branchExists (env : GitEnv) (wp bn : String)
    (bb br : Option String) (tr6 : List (List String))
    (hv : (match br with
           | some r => env.verifyCommitOk (r ++ "/" ++ (resolveMainBranchTraced env bb br).2)
           | none => true) = true)
    (hl : env.localRefExists bn = true)
    (htr : tr6.filter isWorktreeAddCmd = []) :
    (createWorktreeFinish env wp bn bb br tr6).2 = .error (.branchExists bn) ∧
    (createWorktreeFinish env wp bn bb br tr6).1.filter isWorktreeAddCmd = [] := by
  cases br with
  | none =>
    simp only [createWorktreeFinish]
    constructor
    · simp [hl]
    · simp [hl, List.filter_append, htr, resolveMainBranchTraced_no_add, isWorktreeAddCmd]
  | some r =>
    have hv' : env.verifyCommitOk (r ++ "/" ++ (resolveMainBranchTraced env bb (some r)).2) =
        true := by simpa using hv
    simp only [createWorktreeFinish]
    constructor
    · simp [hv', hl]
    · simp [hv', hl, List.filter_append, htr, resolveMainBranchTraced_no_add, isWorktreeAddCmd]

end WorktreeManager

/-! ## Claim C6 theorem -/

/-- C6: when execution reaches the branch check and a local branch named
`branchName` (default: the worktree name) already exists — detected by the
`git show-ref --verify` exit code — `createWorktree` rejects with the
branch-already-exists error and no `git worktree add` command is ever run. -/
theorem c6_branch_exists_rejects (env : WorktreeManager.GitEnv)
    (projectPath name : String) (branch baseBranch worktreeFolder : Option String)
    (h1 : WorktreeManager.reachesBranchCheck env baseBranch = true)
    (h2 : env.localRefExists (WorktreeManager.branchNameOf branch name) = true) :
    (WorktreeManager.createWorktree env projectPath name branch baseBranch worktreeFolder).2 =
      .error (.branchExists (WorktreeManager.branchNameOf branch name)) ∧
    (WorktreeManager.createWorktree env projectPath name branch baseBranch
      worktreeFolder).1.filter WorktreeManager.isWorktreeAddCmd = [] := by
  simp only [WorktreeManager.reachesBranchCheck, Bool.and_eq_true] at h1
  obtain ⟨hp, hv⟩ := h1
  have hc1 : (!env.insideWorkTree && !env.initOk) = false := by
    simp only [WorktreeManager.phase1Ok, Bool.and_eq_true] at hp
    cases h : env.insideWorkTree <;> cases h' : env.initOk <;> simp_all
  have hc2 : (!env.hasCommits && !env.commitOk) = false := by
    simp only [WorktreeManager.phase1Ok, Bool.and_eq_true] at hp
    cases h : env.hasCommits <;> cases h' : env.commitOk <;> simp_all
  cases hbr : WorktreeManager.chooseBaseRemote (WorktreeManager.getRemoteUrlM env "origin")
      (WorktreeManager.getRemoteUrlM env "upstream") with
  | none =>
    simp only [WorktreeManager.createWorktree, hc1, hc2, Bool.false_eq_true, if_false, hbr]
    refine WorktreeManager.createWorktreeFinish_branchExists env _ _ baseBranch none _ rfl h2 ?_
    split_ifs <;> simp [WorktreeManager.isWorktreeAddCmd, List.filter_append]
  | some r =>
    rw [hbr] at hv
    rw [Bool.and_eq_true] at hv
    obtain ⟨hf, hv'⟩ := hv
    simp only [WorktreeManager.createWorktree, hc1, hc2, Bool.false_eq_true, if_false, hbr, hf,
      Bool.not_true]
    refine WorktreeManager.createWorktreeFinish_branchExists env _ _ baseBranch (some r) _
      (by simpa using hv') h2 ?_
    split_ifs <;> simp [WorktreeManager.isWorktreeAddCmd, List.filter_append]

/-! ## Demo environments for witnesses -/

namespace WorktreeManager

/-- A healthy repo whose origin is a fork of upstream; the local branch
`taken` exists. -/
def demoEnvFork : GitEnv :=
  { insideWorkTree := true
    initOk := true
    hasCommits := true
    commitOk := true
    remoteUrlRaw := fun r =>
      if r = "origin" then some "git@github.com:forkOwner/repo.git\n"
      else if r = "upstream" then some "git@github.com:realOwner/repo.git\n"
      else none
    fetchOk := fun _ => true
    symbolicRefRaw := fun r =>
      if r = "upstream" then some "refs/remotes/upstream/main\n" else none
    remoteRefExists := fun _ _ => false
    abbrevRefHeadRaw := some "dev\n"
    verifyCommitOk := fun _ => true
    localRefExists := fun b => b = "taken"
    revParseRaw := fun _ => some "abc123\n"
    worktreeAddOk := true }

end WorktreeManager

/-- C4 witness: on the fork environment, `createWorktree` succeeds and the
returned `baseBranch` is the one resolved from upstream's symbolic HEAD. -/
theorem c4_base_branch_priority_witness :
    (⟨"/p/worktrees/wt1", "abc123", "main", "wt1"⟩ : WorktreeManager.CreateResult).baseBranch =
      WorktreeManager.resolveMainBranchSpec WorktreeManager.demoEnvFork none
        (WorktreeManager.chooseBaseRemote
          (WorktreeManager.getRemoteUrlM WorktreeManager.demoEnvFork "origin")
          (WorktreeManager.getRemoteUrlM WorktreeManager.demoEnvFork "upstream")) :=
  c4_base_branch_priority WorktreeManager.demoEnvFork "/p" "wt1" none none none
    (WorktreeManager.createWorktree WorktreeManager.demoEnvFork "/p" "wt1" none none none).1
    ⟨"/p/worktrees/wt1", "abc123", "main", "wt1"⟩ rfl

/-- C5 witness: with the spec's concrete fork example, `git fetch upstream` is
the unique fetch and `git fetch origin` never runs. -/
theorem c5_fetch_remote_selection_witness :
    (WorktreeManager.createWorktree WorktreeManager.demoEnvFork "/p" "wt1" none none
      none).1.filter WorktreeManager.isFetchCmd = [["git", "fetch", "upstream"]] ∧
    ["git", "fetch", "origin"] ∉
      (WorktreeManager.createWorktree WorktreeManager.demoEnvFork "/p" "wt1" none none
        none).1 :=
  (c5_fetch_remote_selection WorktreeManager.demoEnvFork "/p" "wt1" none none none
      (by decide)).1
    "git@github.com:forkOwner/repo.git" "git@github.com:realOwner/repo.git"
    (by decide) (by decide) (by decide)

/-- C6 witness: asking for the existing branch `taken` rejects with the
branch-exists error and never runs `git worktree add`. -/
theorem c6_branch_exists_rejects_witness :
    (WorktreeManager.createWorktree WorktreeManager.demoEnvFork "/p" "wt1" (some "taken") none
      none).2 = .error (.branchExists "taken") ∧
    (WorktreeManager.createWorktree WorktreeManager.demoEnvFork "/p" "wt1" (some "taken") none
      none).1.filter WorktreeManager.isWorktreeAddCmd = [] := by
  have h := c6_branch_exists_rejects WorktreeManager.demoEnvFork "/p" "wt1" (some "taken") none
    none (by decide) (by decide)
  exact h

/-! ## Claim C3, amended theorem -/

theorem string_toList_append (a b : String) : (a ++ b).toList = a.toList ++ b.toList :=
  String.data_append a b

theorem toList_ne_nil_of_ne_empty (s : String) (h : s ≠ "") : s.toList ≠ [] := by
  intro hl
  apply h
  rw [← String.asString_toList s, hl]
  rfl

theorem dropWhile_eq_self_of_head {p : Char → Bool} (l : List Char)
    (h : ∀ c, l.head? = some c → p c = false) : l.dropWhile p = l := by
  cases l with
  | nil => rfl
  | cons c t => simp [List.dropWhile_cons, h c rfl]

theorem jsTrimL_eq_self (l : List Char)
    (hh : ∀ c, l.head? = some c → isJsWs c = false)
    (hl : ∀ c, l.getLast? = some c → isJsWs c = false) : jsTrimL l = l := by
  unfold jsTrimL
  rw [dropWhile_eq_self_of_head l hh,
    dropWhile_eq_self_of_head l.reverse
      (fun c hc => hl c (by rwa [List.head?_reverse] at hc)),
    List.reverse_reverse]

theorem takeWhile_append_stop {p : Char → Bool} (o r : List Char) (x : Char)
    (ho : ∀ c ∈ o, p c = true) (hx : p x = false) :
    (o ++ x :: r).takeWhile p = o ∧ (o ++ x :: r).dropWhile p = x :: r := by
  induction o with
  | nil => simp [List.takeWhile_cons, List.dropWhile_cons, hx]
  | cons c t ih =>
    have hc : p c = true := ho c (List.mem_cons_self c t)
    have iht := ih (fun c hc' => ho c (List.mem_cons_of_mem _ hc'))
    simp [List.takeWhile_cons, List.dropWhile_cons, hc, iht.1, iht.2]

theorem splitFirstSlash_eq (o r : List Char) (ho : o ≠ []) (hos : '/' ∉ o) :
    splitFirstSlash (o ++ '/' :: r) = some (o, r) := by
  have hstop := takeWhile_append_stop (p := fun c => !(c = '/')) o r '/'
    (fun c hc => by
      have : c ≠ '/' := fun h' => hos (h' ▸ hc)
      simp [this])
    (by simp)
  unfold splitFirstSlash
  rw [hstop.2, hstop.1]
  simp [ho]

theorem lazyRepoCapture_plain (r : List Char) (hr : r ≠ [])
    (hrl : ∀ c ∈ r, isLineTermChar c = false)
    (hrg : strEnds r (".git".toList) = false) :
    lazyRepoCapture r = some r := by
  have hall : r.all (fun c => !isLineTermChar c) = true := by
    rw [List.all_eq_true]
    intro c hc
    simp [hrl c hc]
  unfold lazyRepoCapture
  rw [hrg]
  simp [hr, hall]

theorem lazyRepoCapture_dotgit (r : List Char) (hr : r ≠ [])
    (hrl : ∀ c ∈ r, isLineTermChar c = false) :
    lazyRepoCapture (r ++ ".git".toList) = some r := by
  have hall : r.all (fun c => !isLineTermChar c) = true := by
    rw [List.all_eq_true]
    intro c hc
    simp [hrl c hc]
  have h1 : strEnds (r ++ ".git".toList) (".git".toList) = true :=
    (strEnds_iff _ _).mpr ⟨r, rfl⟩
  have hlen : (r ++ ".git".toList).length = r.length + 4 := by simp
  have h2 : decide (5 ≤ (r ++ ".git".toList).length) = true := by
    rw [decide_eq_true_eq, hlen]
    have : 1 ≤ r.length := List.length_pos.mpr hr
    omega
  have hcond : (strEnds (r ++ ".git".toList) (".git".toList) &&
      decide (5 ≤ (r ++ ".git".toList).length)) = true := by
    rw [h1, Bool.true_and]
    exact h2
  have htake : (r ++ ".git".toList).take ((r ++ ".git".toList).length - 4) = r := by
    rw [hlen]
    have h4 : r.length + 4 - 4 = r.length := by omega
    rw [h4]
    exact List.take_left r _
  unfold lazyRepoCapture
  rw [hcond]
  simp only [if_true]
  rw [htake]
  simp [hall]

/-- C3 (amended): the host is fixed to `github.com` (with `http` also accepted
for the second pattern); for every owner `o` (nonempty, slash-free) and repo
`r` (nonempty, no line terminators, not ending in `.git`, not ending in
whitespace), the four `github.com` URL forms parse to `{owner := o, repo := r}`,
and the parser returns null exactly when the trimmed input matches neither the
SSH nor the HTTPS pattern. -/
theorem c3_github_owner_repo (o r : String)
    (ho : o ≠ "") (hos : '/' ∉ o.toList)
    (hr : r ≠ "") (hrl : ∀ c ∈ r.toList, isLineTermChar c = false)
    (hrg : strEnds r.toList (".git".toList) = false)
    (hrw : ∀ c, r.toList.getLast? = some c → isJsWs c = false) :
    parseGitHubOwnerRepo ("git@github.com:" ++ o ++ "/" ++ r) = some ⟨o, r⟩ ∧
    parseGitHubOwnerRepo ("git@github.com:" ++ o ++ "/" ++ r ++ ".git") = some ⟨o, r⟩ ∧
    parseGitHubOwnerRepo ("https://github.com/" ++ o ++ "/" ++ r) = some ⟨o, r⟩ ∧
    parseGitHubOwnerRepo ("https://github.com/" ++ o ++ "/" ++ r ++ ".git") = some ⟨o, r⟩ ∧
    (∀ url : String, parseGitHubOwnerRepo url = none ↔
      (sshParse (jsTrimL url.toList) = none ∧ httpsParse (jsTrimL url.toList) = none)) := by
  have hoL : o.toList ≠ [] := toList_ne_nil_of_ne_empty o ho
  have hrL : r.toList ≠ [] := toList_ne_nil_of_ne_empty r hr
  have hgitL : r.toList ++ ".git".toList ≠ [] := by simp
  have hrlg : ∀ c ∈ r.toList ++ ".git".toList, isLineTermChar c = false := by
    intro c hc
    rcases List.mem_append.mp hc with hc | hc
    · exact hrl c hc
    · fin_cases hc <;> decide
  -- trim stability for a list of the shape pre ++ (o ++ '/' :: rest)
  have trim_stable : ∀ (pre : List Char) (rest : List Char),
      pre.head? = some 'g' ∨ pre.head? = some 'h' →
      (∀ c, rest.getLast? = some c → isJsWs c = false) → rest ≠ [] →
      jsTrimL (pre ++ (o.toList ++ '/' :: rest)) = pre ++ (o.toList ++ '/' :: rest) := by
    intro pre rest hph hrlast hrne
    apply jsTrimL_eq_self
    · intro c hc
      cases pre with
      | nil => simp at hph
      | cons p0 pt =>
        simp only [List.cons_append, List.head?_cons, Option.some.injEq] at hc hph
        rcases hph with h | h <;> rw [← hc, h] <;> decide
    · intro c hc
      have hassoc : pre ++ (o.toList ++ '/' :: rest) = (pre ++ o.toList ++ ['/']) ++ rest := by
        simp
      rw [hassoc, List.getLast?_append_of_ne_nil _ hrne] at hc
      exact hrlast c hc
  have hrw_git : ∀ c, (r.toList ++ ".git".toList).getLast? = some c → isJsWs c = false := by
    intro c hc
    rw [List.getLast?_append_of_ne_nil _ (by decide)] at hc
    have : (".git".toList).getLast? = some 't' := by decide
    rw [this] at hc
    cases hc
    decide
  -- ssh computations
  have hssh_plain : sshParse ("git@github.com:".toList ++ (o.toList ++ '/' :: r.toList)) =
      some ⟨o, r⟩ := by
    unfold sshParse
    rw [strStarts_append]
    simp only [if_true]
    rw [List.drop_left' (by decide : ("git@github.com:".toList).length = 15),
      splitFirstSlash_eq o.toList r.toList hoL hos]
    dsimp only
    rw [lazyRepoCapture_plain r.toList hrL hrl hrg]
    rfl
  have hssh_git : sshParse
      ("git@github.com:".toList ++ (o.toList ++ '/' :: (r.toList ++ ".git".toList))) =
      some ⟨o, r⟩ := by
    unfold sshParse
    rw [strStarts_append]
    simp only [if_true]
    rw [List.drop_left' (by decide : ("git@github.com:".toList).length = 15),
      splitFirstSlash_eq o.toList (r.toList ++ ".git".toList) hoL hos]
    dsimp only
    rw [lazyRepoCapture_dotgit r.toList hrL hrl]
    rfl
  have hhttps_plain : httpsParse ("https://github.com/".toList ++ (o.toList ++ '/' :: r.toList)) =
      some ⟨o, r⟩ := by
    unfold httpsParse
    rw [strStarts_append]
    simp only [if_true]
    rw [List.drop_left' (by decide : ("https://github.com/".toList).length = 19),
      splitFirstSlash_eq o.toList r.toList hoL hos]
    dsimp only
    rw [lazyRepoCapture_plain r.toList hrL hrl hrg]
    rfl
  have hhttps_git : httpsParse
      ("https://github.com/".toList ++ (o.toList ++ '/' :: (r.toList ++ ".git".toList))) =
      some ⟨o, r⟩ := by
    unfold httpsParse
    rw [strStarts_append]
    simp only [if_true]
    rw [List.drop_left' (by decide : ("https://github.com/".toList).length = 19),
      splitFirstSlash_eq o.toList (r.toList ++ ".git".toList) hoL hos]
    dsimp only
    rw [lazyRepoCapture_dotgit r.toList hrL hrl]
    rfl
  have hssh_fail_https : ∀ u : List Char,
      sshParse ("https://github.com/".toList ++ u) = none := by
    intro u
    unfold sshParse
    rw [show strStarts ("https://github.com/".toList ++ u) ("git@github.com:".toList) = false
      from rfl]
    simp
  -- list decompositions of the four inputs
  have hdec1 : ("git@github.com:" ++ o ++ "/" ++ r).toList =
      "git@github.com:".toList ++ (o.toList ++ '/' :: r.toList) := by
    rw [string_toList_append, string_toList_append, string_toList_append]
    rw [show "/".toList = ['/'] from rfl]
    simp
  have hdec2 : ("git@github.com:" ++ o ++ "/" ++ r ++ ".git").toList =
      "git@github.com:".toList ++ (o.toList ++ '/' :: (r.toList ++ ".git".toList)) := by
    rw [string_toList_append, string_toList_append, string_toList_append,
      string_toList_append]
    rw [show "/".toList = ['/'] from rfl]
    simp
  have hdec3 : ("https://github.com/" ++ o ++ "/" ++ r).toList =
      "https://github.com/".toList ++ (o.toList ++ '/' :: r.toList) := by
    rw [string_toList_append, string_toList_append, string_toList_append]
    rw [show "/".toList = ['/'] from rfl]
    simp
  have hdec4 : ("https://github.com/" ++ o ++ "/" ++ r ++ ".git").toList =
      "https://github.com/".toList ++ (o.toList ++ '/' :: (r.toList ++ ".git".toList)) := by
    rw [string_toList_append, string_toList_append, string_toList_append,
      string_toList_append]
    rw [show "/".toList = ['/'] from rfl]
    simp
  refine ⟨?_, ?_, ?_, ?_, ?_⟩
  · simp only [parseGitHubOwnerRepo]
    rw [hdec1, trim_stable ("git@github.com:".toList) r.toList (Or.inl rfl) hrw hrL,
      hssh_plain]
  · simp only [parseGitHubOwnerRepo]
    rw [hdec2, trim_stable ("git@github.com:".toList) (r.toList ++ ".git".toList)
      (Or.inl rfl) hrw_git hgitL, hssh_git]
  · simp only [parseGitHubOwnerRepo]
    rw [hdec3, trim_stable ("https://github.com/".toList) r.toList (Or.inr rfl) hrw hrL,
      hssh_fail_https, hhttps_plain]
  · simp only [parseGitHubOwnerRepo]
    rw [hdec4, trim_stable ("https://github.com/".toList) (r.toList ++ ".git".toList)
      (Or.inr rfl) hrw_git hgitL, hssh_fail_https, hhttps_git]
  · intro url
    simp only [parseGitHubOwnerRepo]
    cases h : sshParse (jsTrimL url.toList) <;> simp [h]

/-- C3 witness: owner `alice`, repo `proj` in all four forms. -/
theorem c3_github_owner_repo_witness :
    parseGitHubOwnerRepo "git@github.com:alice/proj" = some ⟨"alice", "proj"⟩ ∧
    parseGitHubOwnerRepo "git@github.com:alice/proj.git" = some ⟨"alice", "proj"⟩ ∧
    parseGitHubOwnerRepo "https://github.com/alice/proj" = some ⟨"alice", "proj"⟩ ∧
    parseGitHubOwnerRepo "https://github.com/alice/proj.git" = some ⟨"alice", "proj"⟩ := by
  have h := c3_github_owner_repo "alice" "proj" (by decide) (by decide) (by decide)
    (by decide) (by decide) (by decide)
  exact ⟨h.1, h.2.1, h.2.2.1, h.2.2.2.1⟩

/-! ## Claim C9, amended theorem -/

theorem dropWhile_eq_drop_takeWhile {p : Char → Bool} (l : List Char) :
    l.dropWhile p = l.drop (l.takeWhile p).length := by
  induction l with
  | nil => rfl
  | cons c t ih =>
    by_cases hc : p c
    · simp [List.dropWhile_cons, List.takeWhile_cons, hc, ih]
    · simp [List.dropWhile_cons, List.takeWhile_cons, hc]

theorem getLast?_drop_of_ne_nil (l : List Char) (n : Nat) (h : l.drop n ≠ []) :
    (l.drop n).getLast? = l.getLast? := by
  conv_rhs => rw [← List.take_append_drop n l]
  rw [List.getLast?_append_of_ne_nil _ h]

theorem tryCapture_of_clean (r : List Char) (hne : r ≠ [])
    (hq : r.all (fun c => !isLineTermChar c) = true) : tryCapture r = some r := by
  unfold tryCapture
  have htw : r.takeWhile (fun c => !isLineTermChar c) = r :=
    List.takeWhile_eq_self_iff.mpr (List.all_eq_true.mp hq)
  rw [htw]
  have hm : r.length ≠ 0 := by
    have := List.length_pos.mpr hne
    omega
  rw [if_neg hm]
  simp [List.drop_length, List.take_length]

theorem tryCapture_none_of_dirty (v : List Char)
    (hex : ∃ x ∈ v, isLineTermChar x = true)
    (hlast : ∀ x, v.getLast? = some x → isJsWs x = false) :
    tryCapture v = none := by
  unfold tryCapture
  by_cases hm : (v.takeWhile (fun c => !isLineTermChar c)).length = 0
  · simp [hm]
  · rw [if_neg hm]
    have hdm : v.drop (v.takeWhile (fun c => !isLineTermChar c)).length =
        v.dropWhile (fun c => !isLineTermChar c) :=
      (dropWhile_eq_drop_takeWhile v).symm
    have hne : v.dropWhile (fun c => !isLineTermChar c) ≠ [] := by
      intro hnil
      obtain ⟨x, hx, hlt⟩ := hex
      have := List.dropWhile_eq_nil_iff.mp hnil x hx
      rw [hlt] at this
      cases this
    have hvne : v ≠ [] := by
      intro h
      subst h
      exact hne rfl
    obtain ⟨x, hx⟩ : ∃ x, v.getLast? = some x := by
      cases v with
      | nil => exact absurd rfl hvne
      | cons a b => exact getLast?_cons_exists a b
    have hxnw := hlast x hx
    have hdropne : v.drop (v.takeWhile (fun c => !isLineTermChar c)).length ≠ [] := by
      rw [hdm]
      exact hne
    have hgl : (v.drop (v.takeWhile (fun c => !isLineTermChar c)).length).getLast? = some x := by
      rw [getLast?_drop_of_ne_nil v _ hdropne]
      exact hx
    have hmem : x ∈ v.drop (v.takeWhile (fun c => !isLineTermChar c)).length :=
      List.mem_of_mem_getLast? (Option.mem_def.mpr hgl)
    have hA : (v.drop (v.takeWhile (fun c => !isLineTermChar c)).length).all isJsWs = false := by
      cases h : (v.drop (v.takeWhile (fun c => !isLineTermChar c)).length).all isJsWs with
      | false => rfl
      | true =>
        have := List.all_eq_true.mp h x hmem
        rw [this] at hxnw
        cases hxnw
    simp [hA]

theorem sCapAux_none (a : Nat) (u : List Char)
    (h : ∀ j ≤ a, tryCapture (u.drop j) = none) : sCapAux a u = none := by
  induction a with
  | zero =>
    have h0 := h 0 (Nat.le_refl 0)
    simpa [sCapAux] using h0
  | succ a ih =>
    have ha1 := h (a + 1) (Nat.le_refl (a + 1))
    unfold sCapAux
    rw [ha1]
    exact ih (fun j hj => h j (Nat.le_succ_of_le hj))

theorem sCap_spec (u : List Char)
    (hlast : ∀ x, u.getLast? = some x → isJsWs x = false) :
    sCapAux ((u.takeWhile isJsWs).length) u =
      (if (u.dropWhile isJsWs).isEmpty then none
       else if (u.dropWhile isJsWs).all (fun c => !isLineTermChar c) then
         some (u.dropWhile isJsWs)
       else none) := by
  have hdrop : u.drop ((u.takeWhile isJsWs).length) = u.dropWhile isJsWs :=
    (dropWhile_eq_drop_takeWhile u).symm
  by_cases hre : u.dropWhile isJsWs = []
  · have hu : u = [] := by
      rcases hcase : u with _ | ⟨a, b⟩
      · rfl
      · exfalso
        rw [hcase] at hre hlast
        obtain ⟨x, hx⟩ := getLast?_cons_exists a b
        have hxnw := hlast x hx
        have hxmem : x ∈ a :: b := List.mem_of_mem_getLast? (Option.mem_def.mpr hx)
        have := List.dropWhile_eq_nil_iff.mp hre x hxmem
        rw [this] at hxnw
        cases hxnw
    subst hu
    simp [sCapAux, tryCapture]
  · have hne : (u.dropWhile isJsWs).isEmpty = false := by
      cases h : (u.dropWhile isJsWs).isEmpty with
      | false => rfl
      | true => exact absurd (List.isEmpty_iff.mp h) hre
    rw [hne]
    simp only [Bool.false_eq_true, if_false]
    by_cases hq : (u.dropWhile isJsWs).all (fun c => !isLineTermChar c) = true
    · rw [if_pos hq]
      have htry : tryCapture (u.dropWhile isJsWs) = some (u.dropWhile isJsWs) :=
        tryCapture_of_clean _ hre hq
      cases hw : (u.takeWhile isJsWs).length with
      | zero =>
        have hu : u.dropWhile isJsWs = u := by
          rw [← hdrop, hw]
          exact List.drop_zero u
        simp only [sCapAux]
        rw [hu] at htry
        rw [hu]
        exact htry
      | succ a =>
        simp only [sCapAux]
        rw [← hw, hdrop, htry]
    · rw [if_neg hq]
      have hex : ∃ x ∈ u.dropWhile isJsWs, isLineTermChar x = true := by
        by_contra hno
        push_neg at hno
        apply hq
        rw [List.all_eq_true]
        intro x hx
        have := hno x hx
        cases h : isLineTermChar x with
        | false => rfl
        | true => exact absurd h this
      apply sCapAux_none
      intro j hj
      apply tryCapture_none_of_dirty
      · obtain ⟨x, hx, hlt⟩ := hex
        refine ⟨x, ?_, hlt⟩
        have hsub : u.dropWhile isJsWs ⊆ u.drop j := by
          rw [← hdrop]
          intro y hy
          have harith : (u.takeWhile isJsWs).length = j + ((u.takeWhile isJsWs).length - j) := by
            omega
          rw [harith, ← List.drop_drop] at hy
          exact List.drop_subset _ _ hy
        exact hsub hx
      · intro x hx
        have hdj : u.drop j ≠ [] := by
          intro hnil
          obtain ⟨y, hy, _⟩ := hex
          have hsub : u.dropWhile isJsWs ⊆ u.drop j := by
            rw [← hdrop]
            intro z hz
            have harith : (u.takeWhile isJsWs).length = j + ((u.takeWhile isJsWs).length - j) := by
              omega
            rw [harith, ← List.drop_drop] at hz
            exact List.drop_subset _ _ hz
          have := hsub hy
          rw [hnil] at this
          cases this
        rw [getLast?_drop_of_ne_nil u j hdj] at hx
        exact hlast x hx

theorem head?_dropWhile_not {p : Char → Bool} (l : List Char) (x : Char)
    (h : (l.dropWhile p).head? = some x) : p x = false := by
  induction l with
  | nil => simp [List.dropWhile] at h
  | cons c t ih =>
    rw [List.dropWhile_cons] at h
    by_cases hc : p c
    · rw [if_pos hc] at h
      exact ih h
    · rw [if_neg hc] at h
      simp only [List.head?_cons, Option.some.injEq] at h
      rw [← h]
      cases hb : p c with
      | false => rfl
      | true => exact absurd hb hc

theorem jsTrimL_getLast_not_ws (l : List Char) :
    ∀ x, (jsTrimL l).getLast? = some x → isJsWs x = false := by
  intro x hx
  unfold jsTrimL at hx
  rw [List.getLast?_reverse] at hx
  exact head?_dropWhile_not _ x hx

/-- C9 (amended): `resolveGitDir` returns `<worktreePath>/.git` when the entry
is a directory; for a file it applies the case-insensitive pattern
`^gitdir:\s*(.+)\s*$` to the file's text *after trimming surrounding
whitespace*, trims the captured path, and resolves it (absolute as-is,
relative against the `.git` file's directory); it returns null when the entry
is absent, the file is unreadable, or the pattern does not match the trimmed
text. -/
theorem c9_resolve_gitdir (worktreePath : String) (entry : DotGitStat) :
    resolveGitDir worktreePath entry = resolveGitDirSpec worktreePath entry := by
  cases entry with
  | absent => rfl
  | directory => rfl
  | fileEntry content =>
    cases content with
    | none => rfl
    | some c =>
      have hkey : regexGitdirCapture (jsTrimL c.toList) =
          gitdirCaptureSpec (jsTrimL c.toList) := by
        unfold regexGitdirCapture gitdirCaptureSpec
        by_cases hpre : ((jsTrimL c.toList).take 7).map Char.toLower = "gitdir:".toList
        · rw [if_pos hpre, if_pos hpre]
          apply sCap_spec
          intro x hx
          have hne : (jsTrimL c.toList).drop 7 ≠ [] := by
            intro h
            rw [h] at hx
            cases hx
          rw [getLast?_drop_of_ne_nil _ 7 hne] at hx
          exact jsTrimL_getLast_not_ws c.toList x hx
        · rw [if_neg hpre, if_neg hpre]
      simp only [resolveGitDir, resolveGitDirSpec]
      rw [hkey]
